import Mathlib

/-!
Verification of the plan-execution engine of the result-interpreter repository.

The Python modules `app/services/plans/tree_simplifier.py`,
`app/services/interpreter/plan_execute.py`,
`app/services/interpreter/task_executer.py`,
`app/services/interpreter/docker_interpreter.py` and
`app/services/interpreter/venv_interpreter.py` are shallowly embedded below.
Python dictionaries become association lists, Python sets become lists whose
operations mirror `add` / `discard` / `update` / difference (only membership of
the results is ever observed, so the list order standing in for the arbitrary
set iteration order is immaterial), and the external collaborators (similarity
matcher, code generator, task oracle, sandbox) become explicit function
parameters.
-/

namespace ResultInterpreter

/-! ## Python set primitives (sets represented as lists, observed by membership) -/

/-- Python `set.add`: append the element when it is not already present. -/
def sadd (s : List Nat) (a : Nat) : List Nat :=
  if a ∈ s then s else s ++ [a]

/-- Python `set.discard`: drop every occurrence of the element. -/
def sdiscard (s : List Nat) (a : Nat) : List Nat :=
  s.filter (fun x => x ≠ a)

/-- Python `set.update` (union in place): append the members of `t` missing from `s`. -/
def sunion (s t : List Nat) : List Nat :=
  s ++ t.filter (fun x => x ∉ s)

/-- Python set difference `s - t`. -/
def sdiff (s t : List Nat) : List Nat :=
  s.filter (fun x => x ∉ t)

@[simp] theorem mem_sadd {s : List Nat} {a x : Nat} :
    x ∈ sadd s a ↔ x ∈ s ∨ x = a := by
  by_cases h : a ∈ s
  · simp only [sadd, if_pos h]
    constructor
    · exact Or.inl
    · rintro (hx | rfl) <;> assumption
  · simp [sadd, if_neg h]

@[simp] theorem mem_sdiscard {s : List Nat} {a x : Nat} :
    x ∈ sdiscard s a ↔ x ∈ s ∧ x ≠ a := by
  simp [sdiscard]

@[simp] theorem mem_sunion {s t : List Nat} {x : Nat} :
    x ∈ sunion s t ↔ x ∈ s ∨ x ∈ t := by
  by_cases h : x ∈ s <;> simp [sunion, h]

@[simp] theorem mem_sdiff {s t : List Nat} {x : Nat} :
    x ∈ sdiff s t ↔ x ∈ s ∧ x ∉ t := by
  simp [sdiff]

/-! ## Data model of `tree_simplifier.py` -/

/-- `DAGNode` from `tree_simplifier.py`: a node of the merged graph.  The
`metadata` dictionary is carried as an opaque association list. -/
structure DAGNode where
  id : Nat
  name : String
  instruction : Option String := none
  source_node_ids : List Nat := []
  parent_ids : List Nat := []
  child_ids : List Nat := []
  dependencies : List Nat := []
  metadata : List (String × String) := []
  deriving Repr, DecidableEq

/-- `DAG` from `tree_simplifier.py`.  `nodes` is the Python dict `id -> DAGNode`
(association list in insertion order), `merge_map` the dict
`removed id -> surviving id`. -/
structure DAG where
  plan_id : Nat
  title : String
  description : Option String := none
  nodes : List (Nat × DAGNode) := []
  merge_map : List (Nat × Nat) := []
  deriving Repr, DecidableEq

/-- `TaskType` from `task_executer.py`: the closed set of execution modes. -/
inductive TaskType where
  | code_required
  | text_only
  | data_summary
  deriving Repr, DecidableEq

/-- The string value of a `TaskType` member. -/
def TaskType.value : TaskType → String
  | .code_required => "code_required"
  | .text_only => "text_only"
  | .data_summary => "data_summary"

/-- The `TaskType(s)` enum constructor: `some` on the three member values,
`none` where Python raises `ValueError`. -/
def taskTypeOfString (s : String) : Option TaskType :=
  if s = "code_required" then some .code_required
  else if s = "text_only" then some .text_only
  else if s = "data_summary" then some .data_summary
  else none

/-- The execution-result dictionary persisted by `_execute_single_node` and
parsed back by `_load_node_record_from_db`.  The JSON round trip is the
identity on these well-formed payloads, so the payload is stored structured;
a malformed persisted string is represented by `none` at the use site. -/
structure ExecPayload where
  task_type : Option String := none
  code : Option String := none
  code_description : Option String := none
  code_output : Option String := none
  text_response : Option String := none
  generated_files : List String := []
  has_visualization : Bool := false
  visualization_purpose : Option String := none
  visualization_analysis : Option String := none
  error : Option String := none
  deriving Repr, DecidableEq

/-- Modelled from the spec: `PlanNode` of `app/services/plans/plan_models.py`
(the file itself is not in the sources; its shape is fixed by §3 of the spec —
identifier, name, instruction, explicit dependency list, metadata map — plus
the `status` / `execution_result` persistence fields read by the executor). -/
structure PlanNode where
  id : Nat
  name : String
  instruction : Option String := none
  dependencies : List Nat := []
  metadata : List (String × String) := []
  status : String := "pending"
  execution_result : Option ExecPayload := none
  deriving Repr, DecidableEq

/-- Modelled from the spec: `PlanTree` of `app/services/plans/plan_models.py`
(missing from the sources): the node dictionary plus the parent-to-children
adjacency used by `tree_to_dag`, with key `none` for the roots. -/
structure PlanTree where
  id : Nat
  title : String
  description : Option String := none
  nodes : List (Nat × PlanNode) := []
  adjacency : List (Option Nat × List Nat) := []
  deriving Repr, DecidableEq

/-- Keys of a node dictionary. -/
def keysOf (l : List (Nat × DAGNode)) : List Nat := l.map Prod.fst

/-- Membership of a key in a node dictionary (`node_id in dag.nodes`). -/
def hasKey (l : List (Nat × DAGNode)) (k : Nat) : Bool :=
  (l.lookup k).isSome

/-- Update the value stored under key `k` (in-place mutation of one dict entry). -/
def updNode (l : List (Nat × DAGNode)) (k : Nat) (f : DAGNode → DAGNode) :
    List (Nat × DAGNode) :=
  l.map (fun p => if p.1 = k then (p.1, f p.2) else p)

/-- `TreeSimplifier.tree_to_dag`, first phase: one fresh `DAGNode` per plan node. -/
def initialDagNodes (tree : PlanTree) : List (Nat × DAGNode) :=
  tree.nodes.map (fun p =>
    (p.1, { id := p.1, name := p.2.name, instruction := p.2.instruction,
            source_node_ids := [p.1], dependencies := p.2.dependencies,
            metadata := p.2.metadata }))

/-- `TreeSimplifier.tree_to_dag`, second phase: record one parent/child edge
(skipping dangling endpoints exactly as the source does). -/
def addChildEdge (l : List (Nat × DAGNode)) (parent child : Nat) :
    List (Nat × DAGNode) :=
  if hasKey l child then
    updNode (updNode l parent (fun n => { n with child_ids := sadd n.child_ids child }))
      child (fun n => { n with parent_ids := sadd n.parent_ids parent })
  else l

/-- `TreeSimplifier.tree_to_dag`: structural conversion of a plan tree into a DAG. -/
def tree_to_dag (tree : PlanTree) : DAG :=
  let base := initialDagNodes tree
  let nodes := tree.adjacency.foldl
    (fun acc entry =>
      match entry.1 with
      | none => acc
      | some parent =>
          if hasKey acc parent then
            entry.2.foldl (fun acc2 child => addChildEdge acc2 parent child) acc
          else acc)
    base
  { plan_id := tree.id, title := tree.title, description := tree.description,
    nodes := nodes }

/-! ## `TreeSimplifier.is_reachable`: breadth-first search over child edges -/

/-- One run of the BFS `while queue:` loop of `is_reachable`, with explicit
fuel.  Mirrors the source line by line: pop the front, succeed on the target,
skip already-visited ids, otherwise mark visited and enqueue the unvisited
children.  The fuel only bounds the number of loop iterations; `bfsFuel`
below always suffices (`bfsReach_complete`). -/
def bfsReach (nodes : List (Nat × DAGNode)) (toId : Nat) :
    Nat → List Nat → List Nat → Bool
  | 0, _, _ => false
  | _ + 1, _, [] => false
  | fuel + 1, visited, current :: rest =>
      if current = toId then true
      else if current ∈ visited then bfsReach nodes toId fuel visited rest
      else
        let visited2 := sadd visited current
        match nodes.lookup current with
        | some n => bfsReach nodes toId fuel visited2 (rest ++ sdiff n.child_ids visited2)
        | none => bfsReach nodes toId fuel visited2 rest

/-- Fuel that always suffices for `bfsReach` (one unit per queue element ever
processed: the queue starts with one element and each node contributes its
children at most once). -/
def bfsFuel (nodes : List (Nat × DAGNode)) : Nat :=
  2 + nodes.length + (nodes.map (fun p => p.2.child_ids.length)).sum

/-- `TreeSimplifier.is_reachable dag from_id to_id`. -/
def is_reachable (dag : DAG) (fromId toId : Nat) : Bool :=
  if fromId = toId then true
  else bfsReach dag.nodes toId (bfsFuel dag.nodes) [] [fromId]

/-! ## `TreeSimplifier.can_merge` and `TreeSimplifier.merge_nodes` -/

/-- `TreeSimplifier.can_merge` (the Boolean component; the human-readable
reason string returned alongside it is dropped). -/
def can_merge (dag : DAG) (node1_id node2_id : Nat) : Bool :=
  match dag.nodes.lookup node1_id, dag.nodes.lookup node2_id with
  | some node1, some node2 =>
      if node1_id = node2_id then false
      else if node2_id ∈ node1.child_ids ∨ node1_id ∈ node2.child_ids then false
      else if node2_id ∈ node1.parent_ids ∨ node1_id ∈ node2.parent_ids then false
      else if is_reachable dag node1_id node2_id then false
      else if is_reachable dag node2_id node1_id then false
      else if node2_id ∈ node1.dependencies then false
      else if node1_id ∈ node2.dependencies then false
      else true
  | _, _ => false

/-- `DAGNode.merge_from`: union the other node into this one. -/
def merge_from (keep other : DAGNode) : DAGNode :=
  { keep with
    source_node_ids := keep.source_node_ids ++ other.source_node_ids,
    parent_ids := sunion keep.parent_ids other.parent_ids,
    child_ids := sunion keep.child_ids other.child_ids,
    dependencies := sunion keep.dependencies other.dependencies }

/-- The self-reference cleanup of `merge_nodes`: discard `keep_id` and
`remove_id` from the merged parent/child sets. -/
def dropSelfRefs (n : DAGNode) (keepId removeId : Nat) : DAGNode :=
  { n with
    parent_ids := sdiscard (sdiscard n.parent_ids keepId) removeId,
    child_ids := sdiscard (sdiscard n.child_ids keepId) removeId }

/-- The reference rewrite of `merge_nodes` applied to every other node:
replace `remove_id` by `keep_id` in one id set. -/
def rewriteRef (s : List Nat) (removeId keepId : Nat) : List Nat :=
  if removeId ∈ s then sadd (sdiscard s removeId) keepId else s

/-- `merge_nodes` reference rewrite for a whole node. -/
def rewriteNode (n : DAGNode) (removeId keepId : Nat) : DAGNode :=
  { n with
    parent_ids := rewriteRef n.parent_ids removeId keepId,
    child_ids := rewriteRef n.child_ids removeId keepId,
    dependencies := rewriteRef n.dependencies removeId keepId }

/-- The in-place update `merge_nodes` applies to one dictionary entry: the
keep entry receives the merged node, every other entry has its references to
`remove_id` rewritten to `keep_id` (the remove entry is deleted afterwards,
so its value is left alone). -/
def mergeRewriteEntry (keepId removeId : Nat) (merged : DAGNode)
    (p : Nat × DAGNode) : Nat × DAGNode :=
  (p.1, if p.1 = keepId then merged
        else if p.1 = removeId then p.2
        else rewriteNode p.2 removeId keepId)

/-- `TreeSimplifier.merge_nodes dag keep_id remove_id force`: fold `remove_id`
into `keep_id`.  Returns the updated DAG together with the Boolean result of
the Python method (the source mutates `dag` in place). -/
def merge_nodes (dag : DAG) (keepId removeId : Nat) (force : Bool := false) :
    DAG × Bool :=
  if ¬ hasKey dag.nodes keepId ∨ ¬ hasKey dag.nodes removeId then (dag, false)
  else if ¬ force ∧ ¬ can_merge dag keepId removeId then (dag, false)
  else
    match dag.nodes.lookup keepId, dag.nodes.lookup removeId with
    | some keepNode, some removeNode =>
        let merged := dropSelfRefs (merge_from keepNode removeNode) keepId removeId
        let rewritten := dag.nodes.map (mergeRewriteEntry keepId removeId merged)
        let pruned := rewritten.filter (fun p => p.1 ≠ removeId)
        ({ dag with nodes := pruned, merge_map := dag.merge_map ++ [(removeId, keepId)] },
         true)
    | _, _ => (dag, false)

/-! ## `TreeSimplifier.simplify` -/

/-- The similarity collaborator of the simplifier (`SimilarityMatcher`):
`find_similar_pairs` answers once per simplification with scored candidate
pairs (scores kept as natural numbers — only their ordering is ever used),
`should_merge` answers the pair-specific follow-up question. -/
structure SimilarityMatcher where
  find_similar_pairs : List DAGNode → List (Nat × Nat × Nat)
  should_merge : DAGNode → DAGNode → Bool

/-- Stable descending insertion used to model
`similar_pairs.sort(key=lambda x: x[2], reverse=True)` (Python sorts stably). -/
def insertByScoreDesc (x : Nat × Nat × Nat) : List (Nat × Nat × Nat) → List (Nat × Nat × Nat)
  | [] => [x]
  | y :: ys => if x.2.2 > y.2.2 then x :: y :: ys else y :: insertByScoreDesc x ys

/-- Stable sort of the candidate pairs by descending score. -/
def sortPairsDesc (l : List (Nat × Nat × Nat)) : List (Nat × Nat × Nat) :=
  l.foldl (fun acc x => insertByScoreDesc x acc) []

/-- The cache consultation of the `simplify` scan for one candidate pair:
answer from the cache when present, otherwise ask `should_merge` once and
append the verdict to the cache (`none` only when a node id is dangling). -/
def passDecision (matcher : SimilarityMatcher) (dag : DAG)
    (cache : List ((Nat × Nat) × Bool)) (n1 n2 : Nat) :
    Option Bool × List ((Nat × Nat) × Bool) :=
  let cacheKey := (min n1 n2, max n1 n2)
  match cache.lookup cacheKey with
  | some b => (some b, cache)
  | none =>
      match dag.nodes.lookup n1, dag.nodes.lookup n2 with
      | some node1, some node2 =>
          let should := matcher.should_merge node1 node2
          (some should, cache ++ [(cacheKey, should)])
      | _, _ => (none, cache)

/-- One inner `for node_id_1, node_id_2, score in similar_pairs:` pass of
`simplify`.  Threads the per-pair `should_merge` cache; returns the updated
DAG, the updated cache, and the `merged` flag (`true` exactly when the pass
performed one merge and broke out of the scan). -/
def simplifyPass (matcher : SimilarityMatcher) (dag : DAG)
    (cache : List ((Nat × Nat) × Bool)) :
    List (Nat × Nat × Nat) → DAG × List ((Nat × Nat) × Bool) × Bool
  | [] => (dag, cache, false)
  | (n1, n2, _) :: pairs =>
      if ¬ hasKey dag.nodes n1 ∨ ¬ hasKey dag.nodes n2 then
        simplifyPass matcher dag cache pairs
      else
        match passDecision matcher dag cache n1 n2 with
        | (some false, cache2) => simplifyPass matcher dag cache2 pairs
        | (some true, cache2) =>
            match merge_nodes dag (min n1 n2) (max n1 n2) false with
            | (dag2, true) => (dag2, cache2, true)
            | (dag2, false) => simplifyPass matcher dag2 cache2 pairs
        | (none, cache2) => simplifyPass matcher dag cache2 pairs

/-- The outer `for _ in range(max_iterations):` loop of `simplify`. -/
def simplifyLoop (matcher : SimilarityMatcher) (pairs : List (Nat × Nat × Nat)) :
    Nat → DAG → List ((Nat × Nat) × Bool) → DAG
  | 0, dag, _ => dag
  | fuel + 1, dag, cache =>
      match simplifyPass matcher dag cache pairs with
      | (dag2, cache2, true) => simplifyLoop matcher pairs fuel dag2 cache2
      | (dag2, _, false) => dag2

/-- `TreeSimplifier.simplify tree max_iterations` with the similarity
collaborator made explicit.  Defaults to the source default
`max_iterations = 100`. -/
def simplify (matcher : SimilarityMatcher) (tree : PlanTree)
    (max_iterations : Nat := 100) : DAG :=
  let dag := tree_to_dag tree
  let similar_pairs := matcher.find_similar_pairs (dag.nodes.map Prod.snd)
  if similar_pairs = [] then dag
  else
    let sorted := sortPairsDesc similar_pairs
    simplifyLoop matcher sorted max_iterations dag []

/-! ## `plan_execute.py`: the scheduler -/

/-- `NodeExecutionStatus` from `plan_execute.py`. -/
inductive ExecStatus where
  | pending
  | running
  | completed
  | failed
  | skipped
  deriving Repr, DecidableEq

/-- ASCII lower-casing of one character (Python `str.lower()` on the status
alphabet; spelled out because `Char.toLower` does not reduce in the kernel). -/
def lowerChar (c : Char) : Char :=
  if 65 ≤ c.toNat ∧ c.toNat ≤ 90 then Char.ofNat (c.toNat + 32) else c

/-- Python `db_status.lower()`. -/
def pythonLower (s : String) : String := String.mk (s.data.map lowerChar)

/-- `PlanExecutorInterpreter._map_db_status_to_execution_status`: `"running"`
is remapped to `pending` (an interrupted run must retry the node), the other
recognised statuses map to themselves, anything else defaults to `pending`
(a falsy persisted status also ends up at `"pending"` in the source). -/
def mapDbStatusToExecutionStatus (db_status : String) : ExecStatus :=
  let status_lower := if db_status = "" then "pending" else pythonLower db_status
  if status_lower = "running" then .pending
  else if status_lower = "pending" then .pending
  else if status_lower = "completed" then .completed
  else if status_lower = "failed" then .failed
  else if status_lower = "skipped" then .skipped
  else .pending

/-- `NodeExecutionRecord` from `plan_execute.py` (timestamps omitted: the
wall-clock strings never feed back into control flow). -/
structure NodeExecutionRecord where
  node_id : Nat
  node_name : String
  status : ExecStatus
  task_type : Option TaskType := none
  code : Option String := none
  code_output : Option String := none
  code_description : Option String := none
  has_visualization : Bool := false
  visualization_purpose : Option String := none
  visualization_analysis : Option String := none
  text_response : Option String := none
  generated_files : List String := []
  error_message : Option String := none
  deriving Repr, DecidableEq

/-- `PlanExecutorInterpreter._load_node_record_from_db`: rebuild a node record
from the persisted payload (`none` when nothing was persisted). -/
def loadNodeRecordFromDb (node : PlanNode) : Option NodeExecutionRecord :=
  match node.execution_result with
  | none => none
  | some p =>
      some { node_id := node.id, node_name := node.name,
             status := mapDbStatusToExecutionStatus node.status,
             task_type := match p.task_type with
                          | none => none
                          | some s => taskTypeOfString s,
             code := p.code, code_output := p.code_output,
             code_description := p.code_description,
             has_visualization := p.has_visualization,
             visualization_purpose := p.visualization_purpose,
             visualization_analysis := p.visualization_analysis,
             text_response := p.text_response,
             generated_files := p.generated_files,
             error_message := p.error }

/-- The status entry `_initialize_node_states` derives for one plan node. -/
def initStatusEntry (p : Nat × PlanNode) : Nat × ExecStatus :=
  (p.1, mapDbStatusToExecutionStatus p.2.status)

/-- The record entry `_initialize_node_states` reloads for one plan node:
present exactly for `completed` nodes whose persisted payload parses. -/
def initRecordEntry (p : Nat × PlanNode) : Option (Nat × NodeExecutionRecord) :=
  if mapDbStatusToExecutionStatus p.2.status = .completed then
    match loadNodeRecordFromDb p.2 with
    | some record => some (p.1, record)
    | none => none
  else none

/-- `PlanExecutorInterpreter._initialize_node_states`: derive every node state
from its persisted status and reload the execution records of the nodes that
are already `completed` (the loop appends one status entry per node, and one
record entry per reloadable completed node, in node order). -/
def initializeNodeStates (tree : PlanTree) :
    List (Nat × ExecStatus) × List (Nat × NodeExecutionRecord) :=
  (tree.nodes.map initStatusEntry, tree.nodes.filterMap initRecordEntry)

/-- Ascending insertion into a sorted list; `sortedAsc` models Python
`sorted(...)` over node ids. -/
def insertAsc (x : Nat) : List Nat → List Nat
  | [] => [x]
  | y :: ys => if x ≤ y then x :: y :: ys else y :: insertAsc x ys

/-- Python `sorted` on a list of ids. -/
def sortedAsc (l : List Nat) : List Nat :=
  l.foldr insertAsc []

/-- Decrement one in-degree entry (Python integers go negative, hence `Int`). -/
def decIndeg (indeg : List (Nat × Int)) (k : Nat) : List (Nat × Int) :=
  indeg.map (fun p => if p.1 = k then (p.1, p.2 - 1) else p)

/-- The shared Kahn worklist loop of `plan_execute.py` (both the
dependency-edge sort in `__init__` and `DAG.topological_sort` use it):
pop the queue front, append to the order, decrement the successors and
enqueue those reaching in-degree zero. -/
def kahnLoop (adj : List (Nat × List Nat)) :
    Nat → List (Nat × Int) → List Nat → List Nat → List Nat
  | 0, _, _, order => order
  | _ + 1, _, [], order => order
  | fuel + 1, indeg, current :: rest, order =>
      let step := (adj.lookup current |>.getD []).foldl
        (fun (st : List (Nat × Int) × List Nat) nxt =>
          let indeg2 := decIndeg st.1 nxt
          if (indeg2.lookup nxt |>.getD 1) = 0 then (indeg2, st.2 ++ [nxt])
          else (indeg2, st.2))
        (indeg, rest)
      kahnLoop adj fuel step.1 step.2 (order ++ [current])

/-- `DAG.topological_sort(reverse)`: Kahn over the parent-count in-degrees;
`none` models the `ValueError` raised when a cycle leaves the order
incomplete. -/
def topological_sort (dag : DAG) (reverse : Bool := false) : Option (List Nat) :=
  let indeg : List (Nat × Int) :=
    dag.nodes.map (fun p => (p.1, (p.2.parent_ids.length : Int)))
  let adj : List (Nat × List Nat) := dag.nodes.map (fun p => (p.1, p.2.child_ids))
  let queue := (dag.nodes.filter (fun p => p.2.parent_ids.length = 0)).map Prod.fst
  let order := kahnLoop adj (dag.nodes.length + 1) indeg queue []
  if order.length = dag.nodes.length then
    if reverse then some order.reverse else some order
  else none

/-- The dependency edges `(dep_id, nid)` collected in
`PlanExecutorInterpreter.__init__`. -/
def depEdges (tree : PlanTree) : List (Nat × Nat) :=
  tree.nodes.foldl
    (fun acc p => acc ++ p.2.dependencies.map (fun dep => (dep, p.1))) []

/-- The Kahn topological sort over dependency edges in
`PlanExecutorInterpreter.__init__`; `none` models the
`ValueError("cycle in dependency graph")`. -/
def depKahnOrder (tree : PlanTree) : Option (List Nat) :=
  let nodes := sortedAsc (tree.nodes.map Prod.fst)
  let edges := (depEdges tree).filter (fun e => e.1 ∈ nodes ∧ e.2 ∈ nodes)
  let indeg : List (Nat × Int) :=
    nodes.map (fun n => (n, ((edges.filter (fun e => e.2 = n)).length : Int)))
  let adj : List (Nat × List Nat) :=
    nodes.map (fun n => (n, (edges.filter (fun e => e.1 = n)).map Prod.snd))
  let queue := nodes.filter (fun n => (indeg.lookup n |>.getD 1) = 0)
  let order := kahnLoop adj (nodes.length + 1) indeg queue []
  if order.length = nodes.length then some order else none

/-- The execution-order computation of `PlanExecutorInterpreter.__init__`:
prefer the dependency-edge order when explicit dependencies exist, otherwise
the reversed parent/child order; every `ValueError` (in particular the cycle
error) is caught and the order falls back to the ascending node ids. -/
def computeTopoOrder (tree : PlanTree) : List Nat :=
  let dag := tree_to_dag tree
  if depEdges tree ≠ [] then
    match depKahnOrder tree with
    | some order => order
    | none => sortedAsc (keysOf dag.nodes)
  else
    match topological_sort dag true with
    | some order => order
    | none => sortedAsc (keysOf dag.nodes)

/-- `PlanExecutorInterpreter._can_execute_node`: the node must be `pending`
and every child must have reached a terminal status; nothing else is
checked (in particular the explicit dependencies are not consulted). -/
def canExecuteNode (dag : DAG) (statuses : List (Nat × ExecStatus)) (nodeId : Nat) :
    Bool :=
  if statuses.lookup nodeId ≠ some .pending then false
  else
    match dag.nodes.lookup nodeId with
    | none => false
    | some dagNode =>
        dagNode.child_ids.all (fun childId =>
          match statuses.lookup childId with
          | some .completed => true
          | some .failed => true
          | some .skipped => true
          | _ => false)

/-- Overwrite the entry under key `k` (keys untouched). -/
def setEntry (k : Nat) (v : ExecStatus) (p : Nat × ExecStatus) : Nat × ExecStatus :=
  if p.1 = k then (p.1, v) else p

/-- Dictionary assignment `self._node_status[k] = v`. -/
def setStatus (statuses : List (Nat × ExecStatus)) (k : Nat) (v : ExecStatus) :
    List (Nat × ExecStatus) :=
  if (statuses.lookup k).isSome then statuses.map (setEntry k v)
  else statuses ++ [(k, v)]

/-- `PlanExecutionResult` from `plan_execute.py` (report path and timestamps
omitted: pure I/O artefacts). -/
structure PlanExecutionResult where
  plan_id : Nat
  plan_title : String
  success : Bool
  total_nodes : Nat
  completed_nodes : Nat
  failed_nodes : Nat
  skipped_nodes : Nat
  node_records : List (Nat × NodeExecutionRecord)
  deriving Repr, DecidableEq

/-- `PlanExecutorInterpreter._execute_single_node`, with the task executor
abstracted into the oracle `taskOracle : node id → success?` (the file
scanning, report writing and database persistence are I/O side effects with
no bearing on the scheduling state).  Returns the updated status map and the
updated record map. -/
def executeSingleNode (tree : PlanTree) (taskOracle : Nat → Bool)
    (statuses : List (Nat × ExecStatus))
    (records : List (Nat × NodeExecutionRecord)) (nodeId : Nat) :
    List (Nat × ExecStatus) × List (Nat × NodeExecutionRecord) :=
  let name := match tree.nodes.lookup nodeId with
              | some n => n.name
              | none => ""
  let statuses1 := setStatus statuses nodeId .running
  let ok := taskOracle nodeId
  let finalStatus : ExecStatus := if ok then .completed else .failed
  let record : NodeExecutionRecord :=
    { node_id := nodeId, node_name := name, status := finalStatus }
  (setStatus statuses1 nodeId finalStatus, records ++ [(nodeId, record)])

/-- One iteration of the main `for idx, node_id in enumerate(self._topo_order)`
loop of `PlanExecutorInterpreter.execute`: skip non-pending nodes, mark
ineligible pending nodes `skipped`, execute the eligible ones. -/
def executeStep (tree : PlanTree) (dag : DAG) (taskOracle : Nat → Bool)
    (st : List (Nat × ExecStatus) × List (Nat × NodeExecutionRecord))
    (nodeId : Nat) :
    List (Nat × ExecStatus) × List (Nat × NodeExecutionRecord) :=
  if st.1.lookup nodeId ≠ some .pending then st
  else if ¬ canExecuteNode dag st.1 nodeId then
    (setStatus st.1 nodeId .skipped, st.2)
  else executeSingleNode tree taskOracle st.1 st.2 nodeId

/-- Count the statuses equal to `s` among the status-map values. -/
def countStatus (statuses : List (Nat × ExecStatus)) (s : ExecStatus) : Nat :=
  (statuses.filter (fun p => p.2 = s)).length

/-- `PlanExecutorInterpreter.execute`: initialise the node states from the
persisted statuses, walk the topological order, and aggregate the summary.
`success` is `failed_count == 0`. -/
def execute (tree : PlanTree) (taskOracle : Nat → Bool) : PlanExecutionResult :=
  let dag := tree_to_dag tree
  let order := computeTopoOrder tree
  let init := initializeNodeStates tree
  let final := order.foldl (executeStep tree dag taskOracle) init
  let completed_count := countStatus final.1 .completed
  let failed_count := countStatus final.1 .failed
  let skipped_count := countStatus final.1 .skipped
  { plan_id := tree.id, plan_title := tree.title,
    success := failed_count = 0,
    total_nodes := tree.nodes.length,
    completed_nodes := completed_count,
    failed_nodes := failed_count,
    skipped_nodes := skipped_count,
    node_records := final.2 }

/-- The final status map of a run (exposed for the statements about
individual node outcomes). -/
def executeFinalStatuses (tree : PlanTree) (taskOracle : Nat → Bool) :
    List (Nat × ExecStatus) :=
  (computeTopoOrder tree).foldl
    (executeStep tree (tree_to_dag tree) taskOracle)
    (initializeNodeStates tree) |>.1

/-! ## `task_executer.py`: the task executor and the code-fix retry loop -/

/-- `CodeExecutionResult` shared by `docker_interpreter.py` and
`venv_interpreter.py`. -/
structure CodeExecutionResult where
  status : String
  output : String := ""
  error : String := ""
  exit_code : Int := 0
  deriving Repr, DecidableEq

/-- The structured reply of the code-generation collaborator
(`CodeTaskResponse` of `coder.py` as consumed by `task_executer.py`). -/
structure CodeResp where
  code : String := ""
  description : String := ""
  has_visualization : Bool := false
  visualization_purpose : Option String := none
  visualization_analysis : Option String := none
  deriving Repr, DecidableEq

/-- The collaborators of `_execute_code_task`, abstracted as functions:
the generators take `(title, description)`, the fixers take `(code, error)`. -/
structure CodeCollaborators where
  generate : String → String → CodeResp
  generate_visualization : String → String → CodeResp
  fix_code : String → String → CodeResp
  fix_visualization_code : String → String → CodeResp

/-- `TaskExecutionResult` from `task_executer.py`. -/
structure TaskExecutionResult where
  task_type : TaskType
  success : Bool
  final_code : Option String := none
  code_description : Option String := none
  code_output : Option String := none
  code_error : Option String := none
  total_attempts : Nat := 0
  has_visualization : Bool := false
  visualization_purpose : Option String := none
  visualization_analysis : Option String := none
  text_response : Option String := none
  gathered_info : Option String := none
  info_gathering_rounds : Nat := 0
  error_message : Option String := none
  deriving Repr, DecidableEq

/-- Observable collaborator interactions of one `_execute_code_task` run:
a sandbox invocation, a targeted-patch request to the fix collaborator, or
a full-redesign request (the `rethink` branch) carrying the length of the
failure history presented. -/
inductive RetryEvent where
  | sandboxRun (attempt : Nat)
  | fixRequest (attempt : Nat)
  | redesignRequest (attempt : Nat) (historyLength : Nat)
  deriving Repr, DecidableEq

/-- Whitespace as stripped by Python `str.strip()` (the characters that occur
in generated code). -/
def isSpaceChar (c : Char) : Bool :=
  c = ' ' ∨ c = '\t' ∨ c = '\n' ∨ c = '\r'

/-- Python truthiness test `code and code.strip()` on a string: falsy exactly
when the string is empty or all-whitespace. -/
def isBlank (s : String) : Bool := s.data.all isSpaceChar

/-- The `Exit Code: ... Stderr: ... Stdout: ...` error text handed to the fix
collaborator (layout whitespace is immaterial to control flow). -/
def errorInfoOf (r : CodeExecutionResult) : String :=
  "Exit Code: " ++ toString r.exit_code ++ " Stderr: " ++ r.error ++
    " Stdout: " ++ r.output

/-- The rethink prompt of `_execute_code_task`: the task description together
with the whole failure history. -/
def rethinkPrompt (task_description : String)
    (history : List (Nat × String × String)) : String :=
  "Task Rethinking Required " ++ task_description ++ " Previous Attempts Failed " ++
    String.join (history.map (fun h => " Attempt " ++ toString h.1 ++ ": " ++ h.2.1))

/-- The `for attempt in range(1, max_fix_attempts + 1)` loop of
`_execute_code_task`.  `sandbox attempt code` abstracts
`self.docker_interpreter.run_python_code(code)` (the environment may answer
differently on different attempts).  On a failure before the last attempt the
fix collaborator is asked for a targeted patch; only when that patch comes
back blank does the loop escalate to the redesign (`rethink`) request with the
full failure history.  Returns the result together with the interaction
trace. -/
def executeCodeTaskLoop (collabs : CodeCollaborators)
    (sandbox : Nat → String → CodeExecutionResult) (is_visualization : Bool)
    (task_title task_description : String) (maxFix : Nat) :
    Nat → Nat → String → String → Bool → Option String → Option String →
    List (Nat × String × String) → List RetryEvent →
    TaskExecutionResult × List RetryEvent
  | 0, _, code, desc, hv, vp, va, _, events =>
      -- unreachable guard (the loop is entered with `remaining = maxFix > 0`)
      ({ task_type := .code_required, success := false, final_code := some code,
         code_description := some desc, total_attempts := 0,
         has_visualization := hv, visualization_purpose := vp,
         visualization_analysis := va }, events)
  | remaining + 1, attempt, code, desc, hv, vp, va, history, events =>
      let execResult := sandbox attempt code
      let events1 := events ++ [.sandboxRun attempt]
      if execResult.status = "success" then
        ({ task_type := .code_required, success := true, final_code := some code,
           code_description := some desc, code_output := some execResult.output,
           code_error := if execResult.error = "" then none else some execResult.error,
           total_attempts := attempt, has_visualization := hv,
           visualization_purpose := vp, visualization_analysis := va }, events1)
      else
        let errorInfo := errorInfoOf execResult
        let history1 := history ++ [(attempt, errorInfo, code)]
        if attempt < maxFix then
          let fixResp := if is_visualization then
                           collabs.fix_visualization_code code errorInfo
                         else collabs.fix_code code errorInfo
          let events2 := events1 ++ [.fixRequest attempt]
          if ¬ isBlank fixResp.code then
            executeCodeTaskLoop collabs sandbox is_visualization task_title
              task_description maxFix remaining (attempt + 1) fixResp.code
              fixResp.description fixResp.has_visualization
              fixResp.visualization_purpose fixResp.visualization_analysis
              history1 events2
          else
            let rethinkResp := collabs.generate ("[RETHINK] " ++ task_title)
              (rethinkPrompt task_description history1)
            let events3 := events2 ++ [.redesignRequest attempt history1.length]
            if ¬ isBlank rethinkResp.code then
              executeCodeTaskLoop collabs sandbox is_visualization task_title
                task_description maxFix remaining (attempt + 1) rethinkResp.code
                rethinkResp.description rethinkResp.has_visualization
                rethinkResp.visualization_purpose rethinkResp.visualization_analysis
                history1 events3
            else
              executeCodeTaskLoop collabs sandbox is_visualization task_title
                task_description maxFix remaining (attempt + 1) code desc hv vp va
                history1 events3
        else
          ({ task_type := .code_required, success := false, final_code := some code,
             code_description := some desc, code_output := some execResult.output,
             code_error := some execResult.error, total_attempts := attempt,
             has_visualization := hv, visualization_purpose := vp,
             visualization_analysis := va,
             error_message := some "code execution failed after max attempts" },
           events1)

/-- `TaskExecutor._execute_code_task` with its collaborators and interaction
trace made explicit (`max_fix_attempts` defaults to 5 as in the source). -/
def executeCodeTask (collabs : CodeCollaborators)
    (sandbox : Nat → String → CodeExecutionResult)
    (task_title task_description : String) (subtask_results : String := "")
    (gathered_info : String := "") (max_fix_attempts : Nat := 5)
    (is_visualization : Bool := false) :
    TaskExecutionResult × List RetryEvent :=
  let enhanced := task_description ++
    (if subtask_results ≠ "" then " Sub-task Results: " ++ subtask_results else "") ++
    (if gathered_info ≠ "" then " Additional Gathered Information: " ++ gathered_info
     else "")
  let codeResponse := if is_visualization then
                        collabs.generate_visualization task_title enhanced
                      else collabs.generate task_title enhanced
  if isBlank codeResponse.code then
    ({ task_type := .code_required, success := false,
       error_message := some "code generation returned no code" }, [])
  else
    executeCodeTaskLoop collabs sandbox is_visualization task_title
      task_description max_fix_attempts max_fix_attempts 1 codeResponse.code
      codeResponse.description codeResponse.has_visualization
      codeResponse.visualization_purpose codeResponse.visualization_analysis [] []

/-- `TaskExecutor._execute_text_task`: one text-generation call, always
successful. -/
def executeTextTask (chat : String → String) (task_title task_description : String)
    (subtask_results gathered_info : String) : TaskExecutionResult :=
  let response := chat ("Text task: " ++ task_title ++ " " ++ task_description ++
    " " ++ subtask_results ++ " " ++ gathered_info)
  { task_type := .text_only, success := true, text_response := some response,
    gathered_info := if gathered_info = "" then none else some gathered_info }

/-- A Python exception escaping a call, by message. -/
abbrev PyError := String

/-- `TaskExecutor.execute`: choose the task type (forced type first, then the
deprecated `force_code` flag, then the classifier, which only ever yields
`text_only` or `code_required` and defaults to `code_required`), then dispatch.
The `data_summary` branch faithfully reproduces the source call
`self._execute_data_summary_task(..., is_visualization=is_visualization)`:
`_execute_data_summary_task` has no `is_visualization` parameter, so the call
itself raises `TypeError` before the task runs.  `classifierTextOnly` abstracts
`_analyze_task_type` (true exactly when the collaborator answers
`text_only`), `gather` abstracts `_gather_additional_info`. -/
def taskExecutorExecute (collabs : CodeCollaborators)
    (sandbox : Nat → String → CodeExecutionResult) (chat : String → String)
    (classifierTextOnly : String → String → Bool)
    (gather : String → String → String × Nat)
    (task_title task_description : String) (subtask_results : String := "")
    (force_code : Option Bool := none) (force_task_type : Option String := none)
    (skip_info_gathering : Bool := false) (is_visualization : Bool := false) :
    Except PyError (TaskExecutionResult × List RetryEvent) :=
  let gathered := if ¬ skip_info_gathering then
                    gather task_title task_description
                  else ("", 0)
  let gathered_info := gathered.1
  let info_rounds := gathered.2
  let taskTypeE : Except PyError TaskType :=
    match force_task_type with
    | some s =>
        match taskTypeOfString s with
        | some t => .ok t
        | none => .error "ValueError: not a valid TaskType"
    | none =>
        match force_code with
        | some true => .ok .code_required
        | some false => .ok .text_only
        | none =>
            .ok (if classifierTextOnly task_title task_description then .text_only
                 else .code_required)
  match taskTypeE with
  | .error e => .error e
  | .ok taskType =>
      let dispatched : Except PyError (TaskExecutionResult × List RetryEvent) :=
        match taskType with
        | .code_required =>
            .ok (executeCodeTask collabs sandbox task_title task_description
              subtask_results gathered_info)
        | .data_summary =>
            .error "TypeError: _execute_data_summary_task got an unexpected keyword argument is_visualization"
        | .text_only =>
            .ok (executeTextTask chat task_title task_description subtask_results
              gathered_info, [])
      match dispatched with
      | .error e => .error e
      | .ok (result, events) =>
          .ok ({ result with
                 gathered_info := if gathered_info = "" then none
                                  else some gathered_info,
                 info_gathering_rounds := info_rounds }, events)

/-! ## `docker_interpreter.py` and `venv_interpreter.py`: the sandbox -/

/-- The observable behaviour of one container run: the poll tick (one tick per
0.5-second poll interval) from which `container.status` reads `exited`, and
the exit state collected afterwards. -/
structure ContainerBehavior where
  exitTick : Nat
  statusCode : Int
  stdout : String := ""
  stderr : String := ""
  deriving Repr, DecidableEq

/-- Outcome of the `while True:` monitoring loop of
`DockerCodeInterpreter.run_python_code`, polling from tick `t`:
`true` means the timeout branch fired (the container was still running at a
poll strictly later than the deadline).  Elapsed wall time at tick `t` is
`t/2` seconds, so `time.time() - start_time > timeout` is `t > 2 * timeout`. -/
def dockerPollTimedOut (exitTick timeoutSecs t : Nat) : Bool :=
  if exitTick ≤ t then false
  else if 2 * timeoutSecs < t then true
  else dockerPollTimedOut exitTick timeoutSecs (t + 1)
termination_by 2 * timeoutSecs + 1 - t
decreasing_by omega

/-- Result of `DockerCodeInterpreter.run_python_code` together with the
container lifecycle facts (`killed`: `container.kill()` was issued;
`removed`: the `finally:` block removed the container). -/
structure DockerRunOutcome where
  result : CodeExecutionResult
  killed : Bool
  removed : Bool
  deriving Repr, DecidableEq

/-- `DockerCodeInterpreter.run_python_code`: start a container, poll it at the
fixed 0.5-second interval, kill it and report `timeout` when a poll finds it
still running past the deadline, otherwise collect exit code and logs
(`success` on zero, `failed` otherwise); the container is always removed
afterwards.  `clientAvailable` is the `self.client` guard, `startOk` covers
the image-pull / container-start error paths. -/
def dockerRunPythonCode (clientAvailable startOk : Bool) (cb : ContainerBehavior)
    (timeoutSecs : Nat) : DockerRunOutcome :=
  if ¬ clientAvailable then
    { result := { status := "error", output := "",
                  error := "Docker client is not available", exit_code := -1 },
      killed := false, removed := false }
  else if ¬ startOk then
    { result := { status := "error", output := "", error := "failed to start",
                  exit_code := -1 },
      killed := false, removed := false }
  else if dockerPollTimedOut cb.exitTick timeoutSecs 0 then
    { result := { status := "timeout", output := "",
                  error := "Execution exceeded " ++ toString timeoutSecs ++
                    " seconds limit.", exit_code := -1 },
      killed := true, removed := true }
  else
    { result := { status := if cb.statusCode = 0 then "success" else "failed",
                  output := cb.stdout, error := cb.stderr,
                  exit_code := cb.statusCode },
      killed := false, removed := true }

/-- The outcome of `subprocess.run(..., timeout=...)` as observed by
`VenvCodeInterpreter.run_python_code`.  Modelled from the documented library
contract: on `completed` the child finished within the deadline; `timedOut`
stands for `subprocess.TimeoutExpired`, which the library raises only after
killing the child process. -/
inductive SubprocessOutcome where
  | completed (stdout stderr : String) (returncode : Int)
  | timedOut
  deriving Repr, DecidableEq

/-- Result of `VenvCodeInterpreter.run_python_code` with the process lifecycle
facts (`processKilled`: the child was killed by the timeout machinery). -/
structure VenvRunOutcome where
  result : CodeExecutionResult
  processKilled : Bool
  deriving Repr, DecidableEq

/-- `VenvCodeInterpreter.run_python_code`: write the code to a temporary file,
run it with `subprocess.run` under the configured deadline, map a zero exit
code to `success`, a non-zero one to `failed`, and a `TimeoutExpired` to
`timeout` (with the child already killed by the library). -/
def venvRunPythonCode (tempFileOk : Bool) (outcome : SubprocessOutcome)
    (timeoutSecs : Nat) : VenvRunOutcome :=
  if ¬ tempFileOk then
    { result := { status := "error", output := "", error := "temp file error",
                  exit_code := -1 },
      processKilled := false }
  else
    match outcome with
    | .completed stdout stderr returncode =>
        { result := { status := if returncode = 0 then "success" else "failed",
                      output := stdout, error := stderr, exit_code := returncode },
          processKilled := false }
    | .timedOut =>
        { result := { status := "timeout", output := "",
                      error := "Execution exceeded " ++ toString timeoutSecs ++
                        " seconds limit.", exit_code := -1 },
          processKilled := true }

/-! ## Association-list and arithmetic helper lemmas -/

theorem lookup_mem {α : Type} [DecidableEq α] {β : Type} :
    ∀ {l : List (α × β)} {k : α} {v : β}, l.lookup k = some v → (k, v) ∈ l := by
  intro l
  induction l with
  | nil => intro k v h; simp at h
  | cons p ps ih =>
      rcases p with ⟨pk, pv⟩
      intro k v h
      by_cases hk : k = pk
      · subst hk
        simp [List.lookup_cons] at h
        subst h
        exact List.mem_cons_self _ _
      · rw [List.lookup_cons] at h
        have hb : (k == pk) = false := by simp [hk]
        rw [hb] at h
        exact List.mem_cons_of_mem _ (ih h)

theorem lookup_map_keyed {β γ : Type} {g : Nat → β → γ} {k : Nat} :
    ∀ {l : List (Nat × β)},
      (l.map (fun p => (p.1, g p.1 p.2))).lookup k = (l.lookup k).map (g k) := by
  intro l
  induction l with
  | nil => simp
  | cons p ps ih =>
      rcases p with ⟨pk, pv⟩
      by_cases hk : k = pk
      · subst hk
        simp [List.lookup_cons]
      · have hb : (k == pk) = false := by simp [hk]
        simp only [List.map_cons, List.lookup_cons, hb]
        exact ih

theorem lookup_filter_key_ne {β : Type} {r k : Nat} (h : k ≠ r) :
    ∀ {l : List (Nat × β)},
      (l.filter (fun p => p.1 ≠ r)).lookup k = l.lookup k := by
  intro l
  induction l with
  | nil => simp
  | cons p ps ih =>
      rcases p with ⟨pk, pv⟩
      by_cases hp : pk = r
      · subst hp
        have hb : (k == pk) = false := beq_false_of_ne h
        rw [List.filter_cons, if_neg (by simp), List.lookup_cons, hb]
        exact ih
      · by_cases hk : k = pk
        · subst hk
          rw [List.filter_cons, if_pos (by simp [hp]), List.lookup_cons,
            List.lookup_cons]
          rw [show (k == k) = true from beq_self_eq_true k]
        · have hb : (k == pk) = false := beq_false_of_ne hk
          rw [List.filter_cons, if_pos (by simp [hp]), List.lookup_cons,
            List.lookup_cons, hb]
          exact ih

theorem lookup_filter_key_self {β : Type} {r : Nat} :
    ∀ {l : List (Nat × β)}, (l.filter (fun p => p.1 ≠ r)).lookup r = none := by
  intro l
  induction l with
  | nil => simp
  | cons p ps ih =>
      rcases p with ⟨pk, pv⟩
      by_cases hp : pk = r
      · subst hp
        rw [List.filter_cons, if_neg (by simp)]
        exact ih
      · have hb : (r == pk) = false := beq_false_of_ne (fun hr => hp hr.symm)
        rw [List.filter_cons, if_pos (by simp [hp]), List.lookup_cons, hb]
        exact ih

theorem single_le_listSum {x : Nat} : ∀ {l : List Nat}, x ∈ l → x ≤ l.sum := by
  intro l
  induction l with
  | nil => intro h; simp at h
  | cons y ys ih =>
      intro h
      rcases List.mem_cons.mp h with rfl | h
      · simp only [List.sum_cons]
        omega
      · have := ih h
        simp only [List.sum_cons]
        omega

theorem listSum_filter_split {α : Type} (l : List α) (p : α → Bool) (w : α → Nat) :
    ((l.filter p).map w).sum + ((l.filter (fun x => ¬ p x)).map w).sum
      = (l.map w).sum := by
  induction l with
  | nil => simp
  | cons x xs ih =>
      by_cases hx : p x = true
      · simp only [List.filter_cons, hx, if_pos, Bool.not_true, decide_eq_true_eq,
          List.map_cons, List.sum_cons]
        rw [if_neg (by simp [hx])]
        omega
      · have hx2 : p x = false := by simpa using hx
        simp only [List.filter_cons, hx2, List.map_cons, List.sum_cons]
        rw [if_neg (by simp [hx2]), if_pos (by simp [hx2])]
        simp only [List.map_cons, List.sum_cons]
        omega

theorem listSum_le_of_sublist {l1 l2 : List Nat} (h : l1.Sublist l2) :
    l1.sum ≤ l2.sum := by
  induction h with
  | slnil => simp
  | cons x _ ih => simp only [List.sum_cons]; omega
  | cons₂ x _ ih => simp only [List.sum_cons]; omega

theorem length_filter_lt {α : Type} {l : List α} {p : α → Bool} {x : α}
    (hx : x ∈ l) (hpx : p x = false) : (l.filter p).length < l.length := by
  induction l with
  | nil => simp at hx
  | cons y ys ih =>
      rcases List.mem_cons.mp hx with rfl | hx
      · rw [List.filter_cons, if_neg (by simp [hpx])]
        have := List.length_filter_le p ys
        simp only [List.length_cons]
        omega
      · by_cases hy : p y = true
        · rw [List.filter_cons, if_pos (by simp [hy])]
          have := ih hx
          simp only [List.length_cons]
          omega
        · have hy2 : p y = false := by simpa using hy
          rw [List.filter_cons, if_neg (by simp [hy2])]
          have := ih hx
          simp only [List.length_cons]
          omega

/-! ## Child-edge reachability: paths and the correctness of the BFS -/

/-- One parent-to-child edge of a node dictionary. -/
def edgeB (nodes : List (Nat × DAGNode)) (a b : Nat) : Bool :=
  match nodes.lookup a with
  | some n => b ∈ n.child_ids
  | none => false

/-- One edge of the combined graph of §3 of the spec: a parent/child edge or
an explicit dependency edge. -/
def combEdgeB (nodes : List (Nat × DAGNode)) (a b : Nat) : Bool :=
  edgeB nodes a b ||
    (match nodes.lookup a with
     | some n => b ∈ n.dependencies
     | none => false)

/-- The child-edge relation as a proposition. -/
def Edge (nodes : List (Nat × DAGNode)) (a b : Nat) : Prop :=
  edgeB nodes a b = true

/-- Child-edge acyclicity of a node dictionary: no node reaches itself through
a nonempty chain of parent-to-child edges. -/
def ChildAcyclic (nodes : List (Nat × DAGNode)) : Prop :=
  ∀ x, ¬ Relation.TransGen (Edge nodes) x x

/-- A concrete path witness: `PathTo nodes a l b` holds when walking the ids
in `l` from `a` along child edges ends at `b`. -/
def PathTo (nodes : List (Nat × DAGNode)) : Nat → List Nat → Nat → Prop
  | a, [], b => a = b
  | a, c :: cs, b => Edge nodes a c ∧ PathTo nodes c cs b

theorem pathTo_transGen {nodes : List (Nat × DAGNode)} :
    ∀ {a : Nat} {l : List Nat} {b : Nat}, PathTo nodes a l b → l ≠ [] →
      Relation.TransGen (Edge nodes) a b := by
  intro a l
  induction l generalizing a with
  | nil => intro b _ h; exact absurd rfl h
  | cons c cs ih =>
      intro b h _
      rcases h with ⟨hedge, hrest⟩
      by_cases hcs : cs = []
      · subst hcs
        cases hrest
        exact Relation.TransGen.single hedge
      · exact Relation.TransGen.head hedge (ih hrest hcs)

theorem pathTo_append {nodes : List (Nat × DAGNode)} :
    ∀ {a : Nat} {l : List Nat} {b c : Nat}, PathTo nodes a l b → Edge nodes b c →
      PathTo nodes a (l ++ [c]) c := by
  intro a l
  induction l generalizing a with
  | nil =>
      intro b c hp he
      have hab : a = b := hp
      subst hab
      exact ⟨he, rfl⟩
  | cons d ds ih =>
      intro b c hp he
      exact ⟨hp.1, ih hp.2 he⟩

theorem transGen_pathTo {nodes : List (Nat × DAGNode)} {a b : Nat}
    (h : Relation.TransGen (Edge nodes) a b) :
    ∃ l, l ≠ [] ∧ PathTo nodes a l b := by
  induction h with
  | single hedge => exact ⟨[_], by simp, hedge, rfl⟩
  | tail _ hedge ih =>
      rcases ih with ⟨l, _, hpath⟩
      exact ⟨l ++ [_], by simp, pathTo_append hpath hedge⟩

theorem pathTo_from_mem {nodes : List (Nat × DAGNode)} :
    ∀ {q : Nat} {l : List Nat} {b x : Nat}, PathTo nodes q l b → x ∈ q :: l →
      ∃ l2, PathTo nodes x l2 b ∧ (x :: l2).Sublist (q :: l) ∧
        (x :: l2) <:+ (q :: l) := by
  intro q l
  induction l generalizing q with
  | nil =>
      intro b x hpath hx
      simp at hx
      subst hx
      exact ⟨[], hpath, by simp, List.suffix_refl _⟩
  | cons c cs ih =>
      intro b x hpath hx
      rcases hpath with ⟨hedge, hrest⟩
      by_cases hxq : x = q
      · subst hxq
        exact ⟨c :: cs, ⟨hedge, hrest⟩, List.Sublist.refl _, List.suffix_refl _⟩
      · have hx2 : x ∈ c :: cs := by
          rcases List.mem_cons.mp hx with h2 | h2
          · exact absurd h2 hxq
          · exact h2
        rcases ih hrest hx2 with ⟨l2, hp2, hsub, hsuf⟩
        exact ⟨l2, hp2, hsub.trans (List.sublist_cons_self _ _),
          hsuf.trans (List.suffix_cons _ _)⟩

theorem pathTo_nodup {nodes : List (Nat × DAGNode)} :
    ∀ {a : Nat} {l : List Nat} {b : Nat}, PathTo nodes a l b →
      ∃ l2, PathTo nodes a l2 b ∧ (a :: l2).Nodup := by
  intro a l
  induction l generalizing a with
  | nil =>
      intro b hpath
      exact ⟨[], hpath, by simp⟩
  | cons c cs ih =>
      intro b hpath
      rcases hpath with ⟨hedge, hrest⟩
      rcases ih hrest with ⟨cs2, hp2, hnd2⟩
      by_cases ha : a ∈ c :: cs2
      · rcases pathTo_from_mem hp2 ha with ⟨l2, hp3, hsub, _⟩
        exact ⟨l2, hp3, hsub.nodup hnd2⟩
      · exact ⟨c :: cs2, ⟨hedge, hp2⟩, by simp [hnd2, ha]⟩

/-- Termination variant of the BFS: queue length plus the weight of the nodes
not yet visited. -/
def bfsVar (nodes : List (Nat × DAGNode)) (visited queue : List Nat) : Nat :=
  queue.length +
    ((nodes.filter (fun p => p.1 ∉ visited)).map
      (fun p => 1 + p.2.child_ids.length)).sum

theorem bfsVar_cons (nodes : List (Nat × DAGNode)) (visited : List Nat) (c : Nat)
    (rest : List Nat) :
    bfsVar nodes visited (c :: rest) = bfsVar nodes visited rest + 1 := by
  simp only [bfsVar, List.length_cons]
  omega

theorem unvisitedSum_sadd_le (nodes : List (Nat × DAGNode)) (visited : List Nat)
    (c : Nat) :
    ((nodes.filter (fun p => p.1 ∉ sadd visited c)).map
        (fun p => 1 + p.2.child_ids.length)).sum ≤
      ((nodes.filter (fun p => p.1 ∉ visited)).map
        (fun p => 1 + p.2.child_ids.length)).sum := by
  apply listSum_le_of_sublist
  apply List.Sublist.map
  apply List.monotone_filter_right
  intro p hp
  simp only [decide_eq_true_eq] at hp ⊢
  intro hmem
  exact hp (by simp [hmem])

theorem unvisitedSum_sadd_drop (nodes : List (Nat × DAGNode)) (visited : List Nat)
    {c : Nat} {n : DAGNode} (hcv : c ∉ visited) (hlc : nodes.lookup c = some n) :
    ((nodes.filter (fun p => p.1 ∉ sadd visited c)).map
        (fun p => 1 + p.2.child_ids.length)).sum + 1 + n.child_ids.length ≤
      ((nodes.filter (fun p => p.1 ∉ visited)).map
        (fun p => 1 + p.2.child_ids.length)).sum := by
  set w : Nat × DAGNode → Nat := fun p => 1 + p.2.child_ids.length with hw
  set P : Nat × DAGNode → Bool := fun p => decide (p.1 ≠ c) with hP
  have hsplit := listSum_filter_split (nodes.filter (fun p => p.1 ∉ visited)) P w
  have heq1 : (nodes.filter (fun p => p.1 ∉ visited)).filter P
      = nodes.filter (fun p => p.1 ∉ sadd visited c) := by
    rw [List.filter_filter]
    apply List.filter_congr
    intro p _
    by_cases h1 : p.1 ∈ visited
    · simp [hP, h1]
    · by_cases h2 : p.1 = c
      · simp [hP, h1, h2]
      · simp [hP, h1, h2]
  have hmem2 : (c, n) ∈ (nodes.filter (fun p => p.1 ∉ visited)).filter
      (fun x => ¬ P x) := by
    apply List.mem_filter.mpr
    refine ⟨List.mem_filter.mpr ⟨lookup_mem hlc, by simpa using hcv⟩, by simp [hP]⟩
  have hle : w (c, n) ≤ (((nodes.filter (fun p => p.1 ∉ visited)).filter
      (fun x => ¬ P x)).map w).sum :=
    single_le_listSum (List.mem_map_of_mem w hmem2)
  rw [heq1] at hsplit
  have : w (c, n) = 1 + n.child_ids.length := rfl
  omega

theorem bfsVar_new_some (nodes : List (Nat × DAGNode)) (visited rest : List Nat)
    {c : Nat} {n : DAGNode} (hcv : c ∉ visited) (hlc : nodes.lookup c = some n) :
    bfsVar nodes (sadd visited c) (rest ++ sdiff n.child_ids (sadd visited c)) + 2 ≤
      bfsVar nodes visited (c :: rest) := by
  have h1 := unvisitedSum_sadd_drop nodes visited hcv hlc
  have h2 : (sdiff n.child_ids (sadd visited c)).length ≤ n.child_ids.length :=
    List.length_filter_le _ _
  simp only [bfsVar, List.length_append, List.length_cons]
  omega

theorem bfsVar_new_none (nodes : List (Nat × DAGNode)) (visited rest : List Nat)
    (c : Nat) :
    bfsVar nodes (sadd visited c) rest + 1 ≤ bfsVar nodes visited (c :: rest) := by
  have h1 := unvisitedSum_sadd_le nodes visited c
  simp only [bfsVar, List.length_cons]
  omega

/-- Completeness of the BFS of `is_reachable`: if some queue element has a
child-edge path to the target that avoids the visited set, the search answers
`true` (given fuel above the variant). -/
theorem bfsReach_complete (nodes : List (Nat × DAGNode)) (toId : Nat) :
    ∀ fuel visited queue, bfsVar nodes visited queue < fuel →
      (∃ q, q ∈ queue ∧ ∃ l, PathTo nodes q l toId ∧
        (∀ x ∈ q :: l, x ∉ visited) ∧ (q :: l).Nodup) →
      bfsReach nodes toId fuel visited queue = true := by
  intro fuel
  induction fuel with
  | zero => intro visited queue hv _; omega
  | succ fuel ih =>
      intro visited queue hv hw
      rcases hw with ⟨q, hq, l, hpath, havoid, hnodup⟩
      cases queue with
      | nil => simp at hq
      | cons c rest =>
          by_cases hct : c = toId
          · simp [bfsReach, hct]
          · rw [show bfsReach nodes toId (fuel + 1) visited (c :: rest)
                = if c = toId then true
                  else if c ∈ visited then bfsReach nodes toId fuel visited rest
                  else match nodes.lookup c with
                    | some n => bfsReach nodes toId fuel (sadd visited c)
                        (rest ++ sdiff n.child_ids (sadd visited c))
                    | none => bfsReach nodes toId fuel (sadd visited c) rest
              from rfl]
            rw [if_neg hct]
            by_cases hcv : c ∈ visited
            · rw [if_pos hcv]
              have hqc : q ≠ c := by
                intro h
                exact havoid q (List.mem_cons_self _ _) (h ▸ hcv)
              have hqrest : q ∈ rest := by
                rcases List.mem_cons.mp hq with h | h
                · exact absurd h hqc
                · exact h
              apply ih
              · rw [bfsVar_cons] at hv
                omega
              · exact ⟨q, hqrest, l, hpath, havoid, hnodup⟩
            · rw [if_neg hcv]
              by_cases hcl : c ∈ q :: l
              · -- the witness path passes through `c`: continue from `c`
                rcases pathTo_from_mem hpath hcl with ⟨l2, hp2, hsub, _⟩
                have havoid2 : ∀ x ∈ c :: l2, x ∉ visited := fun x hx =>
                  havoid x (hsub.mem hx)
                have hnodup2 : (c :: l2).Nodup := hsub.nodup hnodup
                cases l2 with
                | nil => exact absurd hp2 hct
                | cons d l2t =>
                    rcases hp2 with ⟨hedge, hrest⟩
                    rcases hlc : nodes.lookup c with _ | n
                    · exfalso
                      unfold Edge edgeB at hedge
                      rw [hlc] at hedge
                      simp at hedge
                    · have hdmem : d ∈ n.child_ids := by
                        unfold Edge edgeB at hedge
                        rw [hlc] at hedge
                        simpa using hedge
                      apply ih
                      · have := bfsVar_new_some nodes visited rest hcv hlc
                        omega
                      · have hcd2 : c ∉ d :: l2t := by
                          have h0 := hnodup2
                          simp only [List.nodup_cons] at h0
                          exact h0.1
                        refine ⟨d, ?_, l2t, hrest, ?_, ?_⟩
                        · apply List.mem_append_right
                          apply List.mem_filter.mpr
                          refine ⟨hdmem, ?_⟩
                          have hdc : d ≠ c := by
                            intro h
                            exact hcd2 (h ▸ List.mem_cons_self _ _)
                          have hdv : d ∉ visited :=
                            havoid2 d (by simp)
                          simp [hdv, hdc]
                        · intro x hx
                          have hxv : x ∉ visited :=
                            havoid2 x (List.mem_cons_of_mem _ hx)
                          have hxc : x ≠ c := by
                            intro h
                            subst h
                            exact hcd2 hx
                          simp [hxv, hxc]
                        · exact hnodup2.of_cons
              · -- the witness path avoids `c` entirely
                have hqc : q ≠ c := fun h => hcl (h ▸ List.mem_cons_self _ _)
                have hqrest : q ∈ rest := by
                  rcases List.mem_cons.mp hq with h | h
                  · exact absurd h hqc
                  · exact h
                have havoid2 : ∀ x ∈ q :: l, x ∉ sadd visited c := by
                  intro x hx
                  have h1 := havoid x hx
                  have h2 : x ≠ c := fun h => hcl (h ▸ hx)
                  simp [h1, h2]
                rcases hlc : nodes.lookup c with _ | n
                · apply ih
                  · have := bfsVar_new_none nodes visited rest c
                    omega
                  · exact ⟨q, hqrest, l, hpath, havoid2, hnodup⟩
                · apply ih
                  · have := bfsVar_new_some nodes visited rest hcv hlc
                    omega
                  · exact ⟨q, List.mem_append_left _ hqrest, l, hpath, havoid2,
                      hnodup⟩

theorem sum_map_one_add {α : Type} (l : List α) (f : α → Nat) :
    (l.map (fun x => 1 + f x)).sum = l.length + (l.map f).sum := by
  induction l with
  | nil => simp
  | cons x xs ih =>
      simp only [List.map_cons, List.sum_cons, List.length_cons, ih]
      omega

/-- Completeness of `is_reachable`: a child-edge path implies a `true`
answer.  (Contrapositive: when `is_reachable` answers `false` there is no
path, which is what the merge-safety argument needs.) -/
theorem is_reachable_complete {dag : DAG} {f t : Nat}
    (h : Relation.ReflTransGen (Edge dag.nodes) f t) :
    is_reachable dag f t = true := by
  by_cases hft : f = t
  · simp [is_reachable, hft]
  · rcases Relation.reflTransGen_iff_eq_or_transGen.mp h with h1 | h1
    · exact absurd h1.symm hft
    · rcases transGen_pathTo h1 with ⟨l, _, hpath⟩
      rcases pathTo_nodup hpath with ⟨l2, hp2, hnd⟩
      rw [is_reachable, if_neg hft]
      apply bfsReach_complete
      · have h2 : ((dag.nodes.filter
            (fun p => p.1 ∉ ([] : List Nat))).map
              (fun p => 1 + p.2.child_ids.length)).sum ≤
            (dag.nodes.map (fun p => 1 + p.2.child_ids.length)).sum := by
          apply listSum_le_of_sublist
          exact List.Sublist.map _ (List.filter_sublist _)
        have h3 := sum_map_one_add dag.nodes (fun p => p.2.child_ids.length)
        simp only [bfsVar, bfsFuel, List.length_cons, List.length_nil]
        omega
      · exact ⟨f, by simp, l2, hp2, by simp, hnd⟩

theorem is_reachable_false_no_path {dag : DAG} {f t : Nat}
    (h : is_reachable dag f t = false) :
    ¬ Relation.ReflTransGen (Edge dag.nodes) f t := by
  intro hr
  rw [is_reachable_complete hr] at h
  cases h

/-! ## Merging two incomparable nodes preserves child-edge acyclicity -/

/-- The child-edge relation after identifying `R` with `K` in an abstract
graph: every edge of the merged graph is of this shape. -/
def EdgeQ (E : Nat → Nat → Prop) (K R : Nat) (x y : Nat) : Prop :=
  E x y ∨ (x = K ∧ E R y) ∨ (y = K ∧ E x R) ∨ (x = K ∧ y = K ∧ E R R)

theorem transGen_edgeQ_cases {E : Nat → Nat → Prop} {K R : Nat}
    (acyc : ∀ z, ¬ Relation.TransGen E z z)
    (hKR : ¬ Relation.ReflTransGen E K R)
    (hRK : ¬ Relation.ReflTransGen E R K) :
    ∀ {x y : Nat}, Relation.TransGen (EdgeQ E K R) x y →
      Relation.TransGen E x y ∨
      (Relation.ReflTransGen E x K ∧ Relation.ReflTransGen E R y) ∨
      (Relation.ReflTransGen E x R ∧ Relation.ReflTransGen E K y) := by
  intro x y hxy
  induction hxy using Relation.TransGen.head_induction_on with
  | base h =>
      rcases h with hE | ⟨hxK, hRy⟩ | ⟨hyK, hxR⟩ | ⟨_, _, hRR⟩
      · exact Or.inl (Relation.TransGen.single hE)
      · subst hxK
        exact Or.inr (Or.inl ⟨Relation.ReflTransGen.refl,
          Relation.ReflTransGen.single hRy⟩)
      · subst hyK
        exact Or.inr (Or.inr ⟨Relation.ReflTransGen.single hxR,
          Relation.ReflTransGen.refl⟩)
      · exact absurd (Relation.TransGen.single hRR) (acyc R)
  | ih hstep htail ihm =>
      rcases hstep with hE | ⟨hxK, hRm⟩ | ⟨hmK, hxR⟩ | ⟨_, _, hRR⟩
      · rcases ihm with h1 | ⟨h1, h2⟩ | ⟨h1, h2⟩
        · exact Or.inl (Relation.TransGen.head hE h1)
        · exact Or.inr (Or.inl ⟨Relation.ReflTransGen.head hE h1, h2⟩)
        · exact Or.inr (Or.inr ⟨Relation.ReflTransGen.head hE h1, h2⟩)
      · subst hxK
        rcases ihm with h1 | ⟨h1, h2⟩ | ⟨h1, h2⟩
        · exact Or.inr (Or.inl ⟨Relation.ReflTransGen.refl,
            Relation.ReflTransGen.head hRm h1.to_reflTransGen⟩)
        · exact absurd (Relation.ReflTransGen.head hRm h1) hRK
        · exact absurd (Relation.TransGen.head' hRm h1) (acyc R)
      · subst hmK
        rcases ihm with h1 | ⟨h1, h2⟩ | ⟨h1, h2⟩
        · exact Or.inr (Or.inr ⟨Relation.ReflTransGen.single hxR,
            h1.to_reflTransGen⟩)
        · exact Or.inl (Relation.TransGen.head' hxR h2)
        · exact absurd h1 hKR
      · exact absurd (Relation.TransGen.single hRR) (acyc R)

theorem edgeQ_acyclic {E : Nat → Nat → Prop} {K R : Nat}
    (acyc : ∀ z, ¬ Relation.TransGen E z z)
    (hKR : ¬ Relation.ReflTransGen E K R)
    (hRK : ¬ Relation.ReflTransGen E R K) :
    ∀ z, ¬ Relation.TransGen (EdgeQ E K R) z z := by
  intro z hz
  rcases transGen_edgeQ_cases acyc hKR hRK hz with h | ⟨h1, h2⟩ | ⟨h1, h2⟩
  · exact acyc z h
  · exact hRK (h2.trans h1)
  · exact hKR (h2.trans h1)

theorem mem_rewriteRef {s : List Nat} {r k y : Nat} :
    y ∈ rewriteRef s r k ↔ (y ∈ s ∧ y ≠ r) ∨ (y = k ∧ r ∈ s) := by
  unfold rewriteRef
  by_cases h : r ∈ s
  · rw [if_pos h]
    simp only [mem_sadd, mem_sdiscard]
    constructor
    · rintro (⟨h1, h2⟩ | h1)
      · exact Or.inl ⟨h1, h2⟩
      · exact Or.inr ⟨h1, h⟩
    · rintro (⟨h1, h2⟩ | ⟨h1, _⟩)
      · exact Or.inl ⟨h1, h2⟩
      · exact Or.inr h1
  · rw [if_neg h]
    constructor
    · intro hy
      exact Or.inl ⟨hy, fun he => h (he ▸ hy)⟩
    · rintro (⟨h1, _⟩ | ⟨_, h1⟩)
      · exact h1
      · exact absurd h1 h

/-- Unfolding of `can_merge` when both nodes exist. -/
theorem can_merge_eq_of_lookup {dag : DAG} {a b : Nat} {na nb : DAGNode}
    (ha : dag.nodes.lookup a = some na) (hb : dag.nodes.lookup b = some nb) :
    can_merge dag a b =
      (if a = b then false
       else if b ∈ na.child_ids ∨ a ∈ nb.child_ids then false
       else if b ∈ na.parent_ids ∨ a ∈ nb.parent_ids then false
       else if is_reachable dag a b then false
       else if is_reachable dag b a then false
       else if b ∈ na.dependencies then false
       else if a ∈ nb.dependencies then false
       else true) := by
  unfold can_merge
  rw [ha, hb]

/-- The facts packed into a positive `can_merge` answer. -/
theorem can_merge_true_facts {dag : DAG} {a b : Nat}
    (h : can_merge dag a b = true) :
    ∃ na nb, dag.nodes.lookup a = some na ∧ dag.nodes.lookup b = some nb ∧
      a ≠ b ∧ is_reachable dag a b = false ∧ is_reachable dag b a = false := by
  rcases ha : dag.nodes.lookup a with _ | na
  · exfalso
    rcases hb : dag.nodes.lookup b with _ | nb <;>
      · have hfalse : can_merge dag a b = false := by unfold can_merge; rw [ha, hb]
        rw [hfalse] at h
        cases h
  rcases hb : dag.nodes.lookup b with _ | nb
  · exfalso
    have hfalse : can_merge dag a b = false := by unfold can_merge; rw [ha, hb]
    rw [hfalse] at h
    cases h
  rw [can_merge_eq_of_lookup ha hb] at h
  refine ⟨na, nb, rfl, rfl, ?_⟩
  by_cases h1 : a = b
  · rw [if_pos h1] at h; cases h
  rw [if_neg h1] at h
  by_cases h2 : b ∈ na.child_ids ∨ a ∈ nb.child_ids
  · rw [if_pos h2] at h; cases h
  rw [if_neg h2] at h
  by_cases h3 : b ∈ na.parent_ids ∨ a ∈ nb.parent_ids
  · rw [if_pos h3] at h; cases h
  rw [if_neg h3] at h
  by_cases h4 : is_reachable dag a b = true
  · rw [if_pos h4] at h; cases h
  rw [if_neg h4] at h
  by_cases h5 : is_reachable dag b a = true
  · rw [if_pos h5] at h; cases h
  rw [if_neg h5] at h
  exact ⟨h1, by simpa using h4, by simpa using h5⟩

theorem merge_nodes_not_mergeable {dag : DAG} {a b : Nat}
    (h : can_merge dag a b = false) :
    merge_nodes dag a b false = (dag, false) := by
  unfold merge_nodes
  by_cases hkeys : ¬ hasKey dag.nodes a = true ∨ ¬ hasKey dag.nodes b = true
  · rw [if_pos hkeys]
  · rw [if_neg hkeys, if_pos (by simp [h])]

theorem merge_nodes_success_can {dag : DAG} {a b : Nat}
    (h : (merge_nodes dag a b false).2 = true) : can_merge dag a b = true := by
  by_cases hc : can_merge dag a b = true
  · exact hc
  · rw [merge_nodes_not_mergeable (by simpa using hc)] at h
    cases h

theorem merge_nodes_failed_unchanged {dag : DAG} {a b : Nat}
    (h : (merge_nodes dag a b false).2 = false) :
    (merge_nodes dag a b false).1 = dag := by
  by_cases hc : can_merge dag a b = true
  · rcases can_merge_true_facts hc with ⟨na, nb, ha, hb, _⟩
    unfold merge_nodes at h
    rw [if_neg (by simp [hasKey, ha, hb])] at h
    rw [if_neg (by simp [hc])] at h
    rw [ha, hb] at h
    cases h
  · rw [merge_nodes_not_mergeable (by simpa using hc)]

/-- Lookup through the entry rewrite performed by a merge. -/
theorem lookup_map_mergeRewrite {K R : Nat} {merged : DAGNode} {k : Nat} :
    ∀ {l : List (Nat × DAGNode)},
      (l.map (mergeRewriteEntry K R merged)).lookup k =
        (l.lookup k).map (fun v =>
          if k = K then merged else if k = R then v else rewriteNode v R K) := by
  intro l
  induction l with
  | nil => simp
  | cons p ps ih =>
      rcases p with ⟨pk, pv⟩
      by_cases hk : k = pk
      · subst hk
        simp [mergeRewriteEntry, List.lookup_cons]
      · have hbeq : (k == pk) = false := beq_false_of_ne hk
        simp only [List.map_cons, mergeRewriteEntry, List.lookup_cons, hbeq]
        exact ih

/-- Explicit form of a successful merge. -/
theorem merge_nodes_success_eq {dag : DAG} {a b : Nat} {na nb : DAGNode}
    (ha : dag.nodes.lookup a = some na) (hb : dag.nodes.lookup b = some nb)
    (hc : can_merge dag a b = true) :
    merge_nodes dag a b false =
      ({ dag with
         nodes := (dag.nodes.map (mergeRewriteEntry a b
             (dropSelfRefs (merge_from na nb) a b))).filter (fun p => p.1 ≠ b),
         merge_map := dag.merge_map ++ [(b, a)] }, true) := by
  unfold merge_nodes
  rw [if_neg (by simp [hasKey, ha, hb])]
  rw [if_neg (by simp [hc])]
  rw [ha, hb]

theorem edge_merge_nodes_sub {dag : DAG} {K R : Nat}
    (hcan : can_merge dag K R = true) :
    ∀ x y, Edge (merge_nodes dag K R false).1.nodes x y →
      EdgeQ (Edge dag.nodes) K R x y := by
  rcases can_merge_true_facts hcan with ⟨nk, nr, hk, hr, hKR, _, _⟩
  intro x y hxy
  rw [merge_nodes_success_eq hk hr hcan] at hxy
  unfold Edge edgeB at hxy
  by_cases hxR : x = R
  · subst hxR
    rw [lookup_filter_key_self] at hxy
    cases hxy
  · rw [lookup_filter_key_ne hxR, lookup_map_mergeRewrite] at hxy
    rcases hx : dag.nodes.lookup x with _ | n
    · rw [hx] at hxy; cases hxy
    · rw [hx] at hxy
      simp only [Option.map_some'] at hxy
      by_cases hxK : x = K
      · subst hxK
        rw [if_pos rfl] at hxy
        simp only [dropSelfRefs, merge_from, mem_sdiscard, mem_sunion,
          decide_eq_true_eq] at hxy
        rcases hxy with ⟨⟨hy1 | hy1, _⟩, _⟩
        · exact Or.inl (by unfold Edge edgeB; rw [hk]; simpa using hy1)
        · exact Or.inr (Or.inl ⟨rfl, by unfold Edge edgeB; rw [hr]; simpa using hy1⟩)
      · rw [if_neg hxK, if_neg hxR] at hxy
        have hy := (mem_rewriteRef (s := n.child_ids) (r := R) (k := K)
          (y := y)).mp (by simpa [rewriteNode] using hxy)
        rcases hy with ⟨hy1, _⟩ | ⟨hy1, hy2⟩
        · exact Or.inl (by unfold Edge edgeB; rw [hx]; simpa using hy1)
        · exact Or.inr (Or.inr (Or.inl ⟨hy1,
            by unfold Edge edgeB; rw [hx]; simpa using hy2⟩))

/-- Any `merge_nodes` call made without `force` keeps the child-edge relation
acyclic: either the safety check rejects the pair and the DAG is unchanged, or
the two nodes were mutually unreachable and the contraction cannot create a
child-edge cycle. -/
theorem merge_nodes_preserves_childAcyclic (dag : DAG) (K R : Nat)
    (hac : ChildAcyclic dag.nodes) :
    ChildAcyclic (merge_nodes dag K R false).1.nodes := by
  by_cases hcan : can_merge dag K R = true
  · rcases can_merge_true_facts hcan with ⟨nk, nr, hk, hr, hKR, hreach1, hreach2⟩
    intro z hz
    have hz2 : Relation.TransGen (EdgeQ (Edge dag.nodes) K R) z z :=
      Relation.TransGen.mono (edge_merge_nodes_sub hcan) hz
    exact edgeQ_acyclic hac (is_reachable_false_no_path hreach1)
      (is_reachable_false_no_path hreach2) z hz2
  · rw [merge_nodes_not_mergeable (by simpa using hcan)]
    exact hac

/-! ## The scan and loop of `simplify` -/

/-- Everything one scan pass does to the DAG goes through a single `force`-free
`merge_nodes` call on a pair that passed `can_merge` (or the DAG is left
untouched). -/
theorem simplifyPass_cases (matcher : SimilarityMatcher) :
    ∀ (pairs : List (Nat × Nat × Nat)) (dag : DAG)
      (cache : List ((Nat × Nat) × Bool)),
      (simplifyPass matcher dag cache pairs).1 = dag ∨
      ∃ a b, can_merge dag a b = true ∧
        (simplifyPass matcher dag cache pairs).1 = (merge_nodes dag a b false).1 := by
  intro pairs
  induction pairs with
  | nil => intro dag cache; exact Or.inl rfl
  | cons p ps ih =>
      intro dag cache
      rcases p with ⟨n1, n2, score⟩
      rw [simplifyPass]
      split
      · exact ih dag cache
      · rcases hdec : passDecision matcher dag cache n1 n2 with ⟨ob, cache2⟩
        match ob with
        | none => exact ih dag cache2
        | some false => exact ih dag cache2
        | some true =>
            rcases hm : merge_nodes dag (min n1 n2) (max n1 n2) false
              with ⟨dag2, ok⟩
            match ok with
            | true =>
                right
                refine ⟨min n1 n2, max n1 n2, ?_, ?_⟩
                · apply merge_nodes_success_can
                  rw [hm]
                · rw [hm]
            | false =>
                have hdag2 : dag2 = dag := by
                  have := merge_nodes_failed_unchanged
                    (a := min n1 n2) (b := max n1 n2) (by rw [hm])
                  rw [hm] at this
                  exact this
                subst hdag2
                exact ih dag2 cache2

/-- A pass that reports no merge leaves the DAG untouched. -/
theorem simplifyPass_unmerged_eq (matcher : SimilarityMatcher) :
    ∀ (pairs : List (Nat × Nat × Nat)) (dag : DAG)
      (cache : List ((Nat × Nat) × Bool)),
      (simplifyPass matcher dag cache pairs).2.2 = false →
      (simplifyPass matcher dag cache pairs).1 = dag := by
  intro pairs
  induction pairs with
  | nil => intro dag cache _; rfl
  | cons p ps ih =>
      intro dag cache h
      rcases p with ⟨n1, n2, score⟩
      rw [simplifyPass] at h ⊢
      by_cases hcond : ¬ hasKey dag.nodes n1 = true ∨ ¬ hasKey dag.nodes n2 = true
      · rw [if_pos hcond] at h ⊢
        exact ih dag cache h
      · rw [if_neg hcond] at h ⊢
        rcases hdec : passDecision matcher dag cache n1 n2 with ⟨ob, cache2⟩
        rw [hdec] at h
        match ob with
        | none => exact ih dag cache2 h
        | some false => exact ih dag cache2 h
        | some true =>
            rcases hm : merge_nodes dag (min n1 n2) (max n1 n2) false
              with ⟨dag2, ok⟩
            rw [hm] at h
            match ok with
            | true => cases h
            | false =>
                have hdag2 : dag2 = dag := by
                  have h3 := merge_nodes_failed_unchanged
                    (a := min n1 n2) (b := max n1 n2) (by rw [hm])
                  rw [hm] at h3
                  exact h3
                subst hdag2
                exact ih dag2 cache2 h

/-- A successful merge removes the folded node from the dictionary. -/
theorem merge_nodes_success_length {dag : DAG} {a b : Nat}
    (h : (merge_nodes dag a b false).2 = true) :
    (merge_nodes dag a b false).1.nodes.length < dag.nodes.length := by
  have hcan := merge_nodes_success_can h
  rcases can_merge_true_facts hcan with ⟨na, nb, ha, hb, _⟩
  rw [merge_nodes_success_eq ha hb hcan]
  have hmem : (b, (mergeRewriteEntry a b (dropSelfRefs (merge_from na nb) a b)
      (b, nb)).2) ∈ dag.nodes.map (mergeRewriteEntry a b
        (dropSelfRefs (merge_from na nb) a b)) := by
    have h1 : (b, nb) ∈ dag.nodes := lookup_mem hb
    have h2 := List.mem_map_of_mem
      (mergeRewriteEntry a b (dropSelfRefs (merge_from na nb) a b)) h1
    simpa [mergeRewriteEntry] using h2
  calc ((dag.nodes.map (mergeRewriteEntry a b (dropSelfRefs (merge_from na nb)
          a b))).filter (fun p => p.1 ≠ b)).length
      < (dag.nodes.map (mergeRewriteEntry a b (dropSelfRefs
          (merge_from na nb) a b))).length :=
        length_filter_lt hmem (by simp)
    _ = dag.nodes.length := List.length_map _ _

/-- A pass that reports a merge strictly decreases the node count. -/
theorem simplifyPass_merged_length (matcher : SimilarityMatcher) :
    ∀ (pairs : List (Nat × Nat × Nat)) (dag : DAG)
      (cache : List ((Nat × Nat) × Bool)),
      (simplifyPass matcher dag cache pairs).2.2 = true →
      (simplifyPass matcher dag cache pairs).1.nodes.length < dag.nodes.length := by
  intro pairs
  induction pairs with
  | nil => intro dag cache h; cases h
  | cons p ps ih =>
      intro dag cache h
      rcases p with ⟨n1, n2, score⟩
      rw [simplifyPass] at h ⊢
      by_cases hcond : ¬ hasKey dag.nodes n1 = true ∨ ¬ hasKey dag.nodes n2 = true
      · rw [if_pos hcond] at h ⊢
        exact ih dag cache h
      · rw [if_neg hcond] at h ⊢
        rcases hdec : passDecision matcher dag cache n1 n2 with ⟨ob, cache2⟩
        rw [hdec] at h
        match ob with
        | none => exact ih dag cache2 h
        | some false => exact ih dag cache2 h
        | some true =>
            rcases hm : merge_nodes dag (min n1 n2) (max n1 n2) false
              with ⟨dag2, ok⟩
            rw [hm] at h
            match ok with
            | true =>
                have h3 := merge_nodes_success_length
                  (a := min n1 n2) (b := max n1 n2) (by rw [hm])
                rw [hm] at h3
                exact h3
            | false =>
                have hdag2 : dag2 = dag := by
                  have h3 := merge_nodes_failed_unchanged
                    (a := min n1 n2) (b := max n1 n2) (by rw [hm])
                  rw [hm] at h3
                  exact h3
                subst hdag2
                exact ih dag2 cache2 h

/-- Child-edge acyclicity is an invariant of the whole merge loop. -/
theorem simplifyLoop_preserves_childAcyclic (matcher : SimilarityMatcher)
    (pairs : List (Nat × Nat × Nat)) :
    ∀ (fuel : Nat) (dag : DAG) (cache : List ((Nat × Nat) × Bool)),
      ChildAcyclic dag.nodes →
      ChildAcyclic (simplifyLoop matcher pairs fuel dag cache).nodes := by
  intro fuel
  induction fuel with
  | zero => intro dag cache h; exact h
  | succ f ih =>
      intro dag cache h
      rw [simplifyLoop]
      rcases hp : simplifyPass matcher dag cache pairs with ⟨dag2, cache2, merged⟩
      have hdag2 : ChildAcyclic dag2.nodes := by
        rcases simplifyPass_cases matcher pairs dag cache with he | ⟨a, b, _, he⟩
        · rw [hp] at he
          rw [show dag2 = dag from he]
          exact h
        · rw [hp] at he
          rw [show dag2 = (merge_nodes dag a b false).1 from he]
          exact merge_nodes_preserves_childAcyclic dag a b h
      match merged with
      | true => exact ih dag2 cache2 hdag2
      | false => exact hdag2

/-- The fuel of the merge loop is irrelevant once it reaches the node count:
every merging pass removes a node, so the loop reaches a pass with no merge
within `node count` iterations. -/
theorem simplifyLoop_fuel_stable (matcher : SimilarityMatcher)
    (pairs : List (Nat × Nat × Nat)) :
    ∀ (n : Nat) (dag : DAG) (cache : List ((Nat × Nat) × Bool)) (f1 f2 : Nat),
      dag.nodes.length ≤ n → dag.nodes.length < f1 → dag.nodes.length < f2 →
      simplifyLoop matcher pairs f1 dag cache = simplifyLoop matcher pairs f2 dag cache := by
  intro n
  induction n with
  | zero =>
      intro dag cache f1 f2 hn h1 h2
      rcases f1 with _ | g1
      · omega
      rcases f2 with _ | g2
      · omega
      rw [simplifyLoop, simplifyLoop]
      rcases hp : simplifyPass matcher dag cache pairs with ⟨dag2, cache2, merged⟩
      match merged with
      | true =>
          exfalso
          have := simplifyPass_merged_length matcher pairs dag cache (by rw [hp])
          omega
      | false => rfl
  | succ m ih =>
      intro dag cache f1 f2 hn h1 h2
      rcases f1 with _ | g1
      · omega
      rcases f2 with _ | g2
      · omega
      rw [simplifyLoop, simplifyLoop]
      rcases hp : simplifyPass matcher dag cache pairs with ⟨dag2, cache2, merged⟩
      match merged with
      | true =>
          have hlen := simplifyPass_merged_length matcher pairs dag cache (by rw [hp])
          rw [hp] at hlen
          have hlen2 : dag2.nodes.length < dag.nodes.length := hlen
          exact ih dag2 cache2 g1 g2 (by omega) (by omega) (by omega)
      | false => rfl

/-- `simplify` keeps the child-edge relation acyclic whenever the structural
conversion of the input tree is acyclic. -/
theorem simplify_preserves_childAcyclic (matcher : SimilarityMatcher)
    (tree : PlanTree) (maxIter : Nat)
    (h : ChildAcyclic (tree_to_dag tree).nodes) :
    ChildAcyclic (simplify matcher tree maxIter).nodes := by
  unfold simplify
  by_cases hp : matcher.find_similar_pairs ((tree_to_dag tree).nodes.map Prod.snd)
      = []
  · simpa [hp] using h
  · simp only [hp, if_neg, if_false]
    exact simplifyLoop_preserves_childAcyclic matcher _ maxIter (tree_to_dag tree)
      [] h

/-- `simplify` is insensitive to the `max_iterations` cap as soon as the cap
exceeds the node count. -/
theorem simplify_fuel_stable (matcher : SimilarityMatcher) (tree : PlanTree)
    (f1 f2 : Nat) (h1 : (tree_to_dag tree).nodes.length < f1)
    (h2 : (tree_to_dag tree).nodes.length < f2) :
    simplify matcher tree f1 = simplify matcher tree f2 := by
  unfold simplify
  by_cases hp : matcher.find_similar_pairs ((tree_to_dag tree).nodes.map Prod.snd)
      = []
  · simp [hp]
  · simp only [hp, if_neg, if_false]
    exact simplifyLoop_fuel_stable matcher _ (tree_to_dag tree).nodes.length
      (tree_to_dag tree) [] f1 f2 (Nat.le_refl _) h1 h2

/-! ## Scheduler lemmas -/

theorem lookup_append {α : Type} [BEq α] [LawfulBEq α] {β : Type} {k : α} :
    ∀ {l1 l2 : List (α × β)},
      (l1 ++ l2).lookup k =
        match l1.lookup k with
        | some v => some v
        | none => l2.lookup k := by
  intro l1 l2
  induction l1 with
  | nil => simp
  | cons p ps ih =>
      rcases p with ⟨pk, pv⟩
      by_cases hk : k = pk
      · subst hk
        simp [List.lookup_cons]
      · have hb : (k == pk) = false := beq_false_of_ne hk
        simp only [List.cons_append, List.lookup_cons, hb]
        exact ih

theorem lookup_map_setEntry {k k2 : Nat} {v : ExecStatus} :
    ∀ {l : List (Nat × ExecStatus)},
      (l.map (setEntry k v)).lookup k2 =
        if k2 = k then (l.lookup k2).map (fun _ => v) else l.lookup k2 := by
  intro l
  induction l with
  | nil => simp
  | cons p ps ih =>
      rcases p with ⟨pk, pv⟩
      by_cases hk2 : k2 = pk
      · subst hk2
        by_cases hk : k2 = k
        · subst hk
          simp [setEntry, List.lookup_cons]
        · simp [setEntry, List.lookup_cons, hk]
      · have hb : (k2 == pk) = false := beq_false_of_ne hk2
        simp only [List.map_cons, setEntry]
        by_cases hpk : pk = k
        · rw [if_pos (by simpa using hpk)]
          rw [show List.lookup k2 (((pk, pv).1, v) :: List.map (setEntry k v) ps)
              = List.lookup k2 (List.map (setEntry k v) ps) from by
            rw [List.lookup_cons, hb]]
          rw [show List.lookup k2 ((pk, pv) :: ps) = List.lookup k2 ps from by
            rw [List.lookup_cons, hb]]
          exact ih
        · rw [if_neg (by simpa using hpk)]
          rw [show List.lookup k2 ((pk, pv) :: List.map (setEntry k v) ps)
              = List.lookup k2 (List.map (setEntry k v) ps) from by
            rw [List.lookup_cons, hb]]
          rw [show List.lookup k2 ((pk, pv) :: ps) = List.lookup k2 ps from by
            rw [List.lookup_cons, hb]]
          exact ih

theorem lookup_setStatus_self {statuses : List (Nat × ExecStatus)} {k : Nat}
    {v : ExecStatus} :
    (setStatus statuses k v).lookup k =
      if (statuses.lookup k).isSome then some v else some v := by
  unfold setStatus
  by_cases h : (statuses.lookup k).isSome
  · rw [if_pos h, if_pos h, lookup_map_setEntry, if_pos rfl]
    rcases hs : statuses.lookup k with _ | w
    · rw [hs] at h; cases h
    · simp
  · rw [if_neg h, if_neg h, lookup_append]
    rcases hs : statuses.lookup k with _ | w
    · simp [List.lookup_cons]
    · rw [hs] at h; simp at h

theorem lookup_setStatus_self_eq {statuses : List (Nat × ExecStatus)} {k : Nat}
    {v : ExecStatus} : (setStatus statuses k v).lookup k = some v := by
  rw [lookup_setStatus_self]
  split <;> rfl

theorem lookup_setStatus_other {statuses : List (Nat × ExecStatus)} {k k2 : Nat}
    {v : ExecStatus} (h : k2 ≠ k) :
    (setStatus statuses k v).lookup k2 = statuses.lookup k2 := by
  unfold setStatus
  by_cases hk : (statuses.lookup k).isSome
  · rw [if_pos hk, lookup_map_setEntry, if_neg h]
  · rw [if_neg hk, lookup_append]
    rcases hs : statuses.lookup k2 with _ | w
    · have hb : (k2 == k) = false := beq_false_of_ne h
      simp [List.lookup_cons, hb]
    · rfl

/-- A step of the execution loop never touches the status entry of a
different node. -/
theorem executeStep_lookup_other (tree : PlanTree) (dag : DAG)
    (oracle : Nat → Bool)
    (st : List (Nat × ExecStatus) × List (Nat × NodeExecutionRecord))
    {m n : Nat} (h : n ≠ m) :
    (executeStep tree dag oracle st m).1.lookup n = st.1.lookup n := by
  unfold executeStep
  by_cases h1 : st.1.lookup m ≠ some .pending
  · rw [if_pos h1]
  · rw [if_neg h1]
    by_cases h2 : ¬ canExecuteNode dag st.1 m = true
    · rw [if_pos h2]
      exact lookup_setStatus_other h
    · rw [if_neg h2]
      unfold executeSingleNode
      rw [lookup_setStatus_other h, lookup_setStatus_other h]

/-- After its own turn in the loop a node is never left `pending`. -/
theorem executeStep_self_nonpending (tree : PlanTree) (dag : DAG)
    (oracle : Nat → Bool)
    (st : List (Nat × ExecStatus) × List (Nat × NodeExecutionRecord)) (n : Nat)
    (h : st.1.lookup n ≠ some ExecStatus.pending ∨ True) :
    (executeStep tree dag oracle st n).1.lookup n ≠ some ExecStatus.pending := by
  unfold executeStep
  by_cases h1 : st.1.lookup n ≠ some ExecStatus.pending
  · rw [if_pos h1]
    exact h1
  · rw [if_neg h1]
    by_cases h2 : ¬ canExecuteNode dag st.1 n = true
    · rw [if_pos h2, lookup_setStatus_self_eq]
      simp
    · rw [if_neg h2]
      unfold executeSingleNode
      rw [lookup_setStatus_self_eq]
      by_cases hok : oracle n = true <;> simp [hok]

/-- Non-`pending` entries stay non-`pending` through any further step. -/
theorem executeStep_keeps_nonpending (tree : PlanTree) (dag : DAG)
    (oracle : Nat → Bool)
    (st : List (Nat × ExecStatus) × List (Nat × NodeExecutionRecord))
    {m n : Nat} (h : st.1.lookup n ≠ some ExecStatus.pending) :
    (executeStep tree dag oracle st m).1.lookup n ≠ some ExecStatus.pending := by
  by_cases hnm : n = m
  · subst hnm
    exact executeStep_self_nonpending tree dag oracle st n (Or.inl h)
  · rw [executeStep_lookup_other tree dag oracle st hnm]
    exact h

theorem foldl_executeStep_keeps_nonpending (tree : PlanTree) (dag : DAG)
    (oracle : Nat → Bool) :
    ∀ (order : List Nat)
      (st : List (Nat × ExecStatus) × List (Nat × NodeExecutionRecord)) (n : Nat),
      st.1.lookup n ≠ some ExecStatus.pending →
      (order.foldl (executeStep tree dag oracle) st).1.lookup n
        ≠ some ExecStatus.pending := by
  intro order
  induction order with
  | nil => intro st n h; exact h
  | cons m ms ih =>
      intro st n h
      exact ih _ n (executeStep_keeps_nonpending tree dag oracle st h)

/-- Every node visited by the execution loop ends in a non-`pending` status:
the loop never aborts before handling each node of its order. -/
theorem foldl_executeStep_nonpending (tree : PlanTree) (dag : DAG)
    (oracle : Nat → Bool) :
    ∀ (order : List Nat)
      (st : List (Nat × ExecStatus) × List (Nat × NodeExecutionRecord)) (n : Nat),
      n ∈ order →
      (order.foldl (executeStep tree dag oracle) st).1.lookup n
        ≠ some ExecStatus.pending := by
  intro order
  induction order with
  | nil => intro st n hn; simp at hn
  | cons m ms ih =>
      intro st n hn
      rcases List.mem_cons.mp hn with rfl | hn2
      · exact foldl_executeStep_keeps_nonpending tree dag oracle ms _ n
          (executeStep_self_nonpending tree dag oracle st n (Or.inr trivial))
      · exact ih _ n hn2

theorem lookup_map_initStatus {k : Nat} :
    ∀ {l : List (Nat × PlanNode)},
      (l.map initStatusEntry).lookup k =
        (l.lookup k).map (fun n => mapDbStatusToExecutionStatus n.status) := by
  intro l
  induction l with
  | nil => simp
  | cons p ps ih =>
      rcases p with ⟨pk, pv⟩
      by_cases hk : k = pk
      · subst hk
        simp [initStatusEntry, List.lookup_cons]
      · have hb : (k == pk) = false := beq_false_of_ne hk
        simp only [List.map_cons, initStatusEntry, List.lookup_cons, hb]
        exact ih

theorem lookup_eq_of_mem_nodup {β : Type} :
    ∀ {l : List (Nat × β)} {k : Nat} {v : β},
      (l.map Prod.fst).Nodup → (k, v) ∈ l → l.lookup k = some v := by
  intro l
  induction l with
  | nil => intro k v _ hm; simp at hm
  | cons p ps ih =>
      rcases p with ⟨pk, pv⟩
      intro k v hnd hm
      simp only [List.map_cons, List.nodup_cons] at hnd
      rcases List.mem_cons.mp hm with heq | hm2
      · rw [show k = pk from congrArg Prod.fst heq,
          show v = pv from congrArg Prod.snd heq]
        simp [List.lookup_cons]
      · have hk : k ≠ pk := by
          intro hkk
          subst hkk
          exact hnd.1 (List.mem_map_of_mem Prod.fst hm2)
        have hb : (k == pk) = false := beq_false_of_ne hk
        rw [List.lookup_cons, hb]
        exact ih hnd.2 hm2

theorem lookup_filterMap_initRecord :
    ∀ {l : List (Nat × PlanNode)} {k : Nat} {n : PlanNode},
      (l.map Prod.fst).Nodup → (k, n) ∈ l →
      (l.filterMap initRecordEntry).lookup k =
        match initRecordEntry (k, n) with
        | some q => some q.2
        | none => none := by
  intro l
  induction l with
  | nil => intro k n _ hm; simp at hm
  | cons p ps ih =>
      rcases p with ⟨pk, pv⟩
      intro k n hnd hm
      simp only [List.map_cons, List.nodup_cons] at hnd
      rcases List.mem_cons.mp hm with heq | hm2
      · have hkpk : k = pk := congrArg Prod.fst heq
        have hnpv : n = pv := congrArg Prod.snd heq
        subst hkpk
        subst hnpv
        rcases hre : initRecordEntry (k, n) with _ | q
        · rw [List.filterMap_cons, hre]
          have : ∀ m2 ∈ ps.filterMap initRecordEntry,
              (List.lookup k (ps.filterMap initRecordEntry)).isSome →
              True := fun _ _ _ => trivial
          -- the key is absent from the tail by nodup
          clear this
          rcases hs : (ps.filterMap initRecordEntry).lookup k with _ | r
          · rfl
          · exfalso
            have hmem := lookup_mem hs
            rcases List.mem_filterMap.mp hmem with ⟨q2, hq2mem, hq2⟩
            have hq2key : q2.1 = k := by
              unfold initRecordEntry at hq2
              by_cases hc : mapDbStatusToExecutionStatus q2.2.status
                  = ExecStatus.completed
              · rw [if_pos hc] at hq2
                rcases hl : loadNodeRecordFromDb q2.2 with _ | rec
                · rw [hl] at hq2; cases hq2
                · rw [hl] at hq2
                  exact congrArg Prod.fst (Option.some.inj hq2)
              · rw [if_neg hc] at hq2; cases hq2
            exact hnd.1 (hq2key ▸ List.mem_map_of_mem Prod.fst hq2mem)
        · rw [List.filterMap_cons, hre]
          have hq1 : q.1 = k := by
            unfold initRecordEntry at hre
            by_cases hc : mapDbStatusToExecutionStatus n.status
                = ExecStatus.completed
            · rw [if_pos hc] at hre
              rcases hl : loadNodeRecordFromDb n with _ | rec
              · rw [hl] at hre; cases hre
              · rw [hl] at hre
                exact (congrArg Prod.fst (Option.some.inj hre)).symm
            · rw [if_neg hc] at hre; cases hre
          rcases q with ⟨qk, qr⟩
          subst hq1
          simp [List.lookup_cons]
      · have hk : k ≠ pk := by
          intro hkk
          subst hkk
          exact hnd.1 (List.mem_map_of_mem Prod.fst hm2)
        rcases hre : initRecordEntry (pk, pv) with _ | q
        · rw [List.filterMap_cons, hre]
          exact ih hnd.2 hm2
        · have hq1 : q.1 = pk := by
            unfold initRecordEntry at hre
            by_cases hc : mapDbStatusToExecutionStatus pv.status
                = ExecStatus.completed
            · rw [if_pos hc] at hre
              rcases hl : loadNodeRecordFromDb pv with _ | rec
              · rw [hl] at hre; cases hre
              · rw [hl] at hre
                exact (congrArg Prod.fst (Option.some.inj hre)).symm
            · rw [if_neg hc] at hre; cases hre
          rw [List.filterMap_cons, hre]
          rcases q with ⟨qk, qr⟩
          rw [List.lookup_cons]
          have hqk : qk = pk := hq1
          have hb : (k == qk) = false :=
            beq_false_of_ne (fun he => hk (he.trans hqk))
          rw [hb]
          exact ih hnd.2 hm2

/-- `_can_execute_node` characterised: `pending` plus all children terminal;
explicit dependencies play no role. -/
theorem canExecuteNode_iff (dag : DAG) (statuses : List (Nat × ExecStatus))
    (n : Nat) :
    canExecuteNode dag statuses n = true ↔
      statuses.lookup n = some ExecStatus.pending ∧
      ∃ dagNode, dag.nodes.lookup n = some dagNode ∧
        ∀ c ∈ dagNode.child_ids, ∃ s, statuses.lookup c = some s ∧
          (s = ExecStatus.completed ∨ s = ExecStatus.failed ∨
            s = ExecStatus.skipped) := by
  unfold canExecuteNode
  by_cases h1 : statuses.lookup n = some ExecStatus.pending
  · rw [if_neg (by simp [h1])]
    rcases hd : dag.nodes.lookup n with _ | dagNode
    · simp
    · simp only [List.all_eq_true]
      constructor
      · intro hall
        refine ⟨h1, dagNode, rfl, ?_⟩
        intro c hc
        have hcs := hall c hc
        rcases hs : statuses.lookup c with _ | s
        · rw [hs] at hcs; cases hcs
        · rw [hs] at hcs
          match s with
          | ExecStatus.completed => exact ⟨_, rfl, Or.inl rfl⟩
          | ExecStatus.failed => exact ⟨_, rfl, Or.inr (Or.inl rfl)⟩
          | ExecStatus.skipped => exact ⟨_, rfl, Or.inr (Or.inr rfl)⟩
          | ExecStatus.pending => cases hcs
          | ExecStatus.running => cases hcs
      · rintro ⟨_, dagNode2, hd2, hterm⟩
        have hdd : dagNode2 = dagNode := by
          exact (Option.some.inj hd2).symm
        subst hdd
        intro c hc
        rcases hterm c hc with ⟨s, hs, hcase⟩
        rw [hs]
        rcases hcase with rfl | rfl | rfl <;> rfl
  · rw [if_pos (by simp [h1])]
    simp [h1]

/-- The timeout branch of the container poll loop fires whenever the
container is still running at the first poll past the deadline. -/
theorem dockerPollTimedOut_true {exitTick timeoutSecs : Nat}
    (h : 2 * timeoutSecs + 1 < exitTick) :
    ∀ k t, 2 * timeoutSecs + 1 - t ≤ k → t ≤ 2 * timeoutSecs + 1 →
      dockerPollTimedOut exitTick timeoutSecs t = true := by
  intro k
  induction k with
  | zero =>
      intro t h1 h2
      have ht : t = 2 * timeoutSecs + 1 := by omega
      subst ht
      rw [dockerPollTimedOut]
      rw [if_neg (by omega), if_pos (by omega)]
  | succ m ih =>
      intro t h1 h2
      rw [dockerPollTimedOut]
      rw [if_neg (by omega)]
      by_cases ht : 2 * timeoutSecs < t
      · rw [if_pos ht]
      · rw [if_neg ht]
        exact ih (t + 1) (by omega) (by omega)

/-- No outgoing child edges anywhere means no child-edge cycle. -/
theorem childAcyclic_of_no_children {nodes : List (Nat × DAGNode)}
    (h : ∀ p ∈ nodes, p.2.child_ids = []) : ChildAcyclic nodes := by
  intro x hx
  rcases transGen_pathTo hx with ⟨l, hne, hpath⟩
  cases l with
  | nil => exact hne rfl
  | cons c cs =>
      have hedge := hpath.1
      unfold Edge edgeB at hedge
      rcases hlx : nodes.lookup x with _ | n
      · rw [hlx] at hedge; cases hedge
      · rw [hlx] at hedge
        have hmem := lookup_mem hlx
        have h2 : n.child_ids = [] := h (x, n) hmem
        have h3 : c ∈ n.child_ids := by simpa using hedge
        rw [h2] at h3
        simp at h3

/-! ## Concrete inputs used by the claim-level statements -/

/-- Three tasks without tree edges; task 1 depends on 3 and task 3 depends
on 2, so 1 reaches 2 through a chain of two dependency edges. -/
def cexTree : PlanTree :=
  { id := 1, title := "cex",
    nodes := [ (1, { id := 1, name := "a", dependencies := [3] }),
               (2, { id := 2, name := "b" }),
               (3, { id := 3, name := "c", dependencies := [2] }) ],
    adjacency := [ (none, [1, 2, 3]) ] }

/-- A similarity oracle that nominates the pair (1, 2) and approves every
merge. -/
def cexMatcher : SimilarityMatcher :=
  { find_similar_pairs := fun _ => [(1, 2, 90)],
    should_merge := fun _ _ => true }

/-- 102 isolated, identically named tasks. -/
def bigTree : PlanTree :=
  { id := 7, title := "big",
    nodes := (List.range 102).map (fun k => (k + 1, { id := k + 1, name := "n" })),
    adjacency := [] }

/-- The candidate pairs of the adversarial oracle: node 1 paired with every
other node of `bigTree`, scores strictly descending. -/
def bigPairs : List (Nat × Nat × Nat) :=
  (List.range 101).map (fun k => (1, k + 2, 1000 - k))

/-- An adversarial oracle pairing node 1 with every other node, in strictly
descending score order, and approving every merge. -/
def bigMatcher : SimilarityMatcher :=
  { find_similar_pairs := fun _ => bigPairs,
    should_merge := fun _ _ => true }

/-- Two tasks whose explicit dependencies form a cycle: 1 depends on 2 and 2
depends on 1. -/
def cycTree : PlanTree :=
  { id := 4, title := "cyc",
    nodes := [ (1, { id := 1, name := "a", dependencies := [2] }),
               (2, { id := 2, name := "b", dependencies := [1] }) ],
    adjacency := [ (none, [1, 2]) ] }

/-- A resumed plan: node 1 was persisted `running` and has child 2; node 2
depends on node 3, which forces the dependency-edge execution order
`[1, 3, 2]`; node 4 was persisted `completed` with a stored payload. -/
def resumeTree : PlanTree :=
  { id := 6, title := "resume",
    nodes := [ (1, { id := 1, name := "p", status := "running" }),
               (2, { id := 2, name := "c", dependencies := [3] }),
               (3, { id := 3, name := "d" }),
               (4, { id := 4, name := "done", status := "completed",
                     execution_result := some ({ task_type := some "text_only",
                                                 text_response := some "cached answer" } : ExecPayload) }) ],
    adjacency := [ (none, [1]), (some 1, [2]), (none, [3]), (none, [4]) ] }

/-- A plan whose every node was persisted `skipped`. -/
def skippedTree : PlanTree :=
  { id := 10, title := "skipped",
    nodes := [ (1, { id := 1, name := "a", status := "skipped" }),
               (2, { id := 2, name := "b", status := "skipped" }) ],
    adjacency := [ (none, [1, 2]) ] }

/-- Node 1 explicitly depends on node 2 and has no children. -/
def c3Tree : PlanTree :=
  { id := 3, title := "c3",
    nodes := [ (1, { id := 1, name := "a", dependencies := [2] }),
               (2, { id := 2, name := "b" }) ],
    adjacency := [ (none, [1, 2]) ] }

/-- Terminal-status test used by the specification wording. -/
def isTerminalStatus (statuses : List (Nat × ExecStatus)) (c : Nat) : Bool :=
  match statuses.lookup c with
  | some ExecStatus.completed => true
  | some ExecStatus.failed => true
  | some ExecStatus.skipped => true
  | _ => false

/-- Modelled from the spec: the eligibility rule exactly as the specification
words it — `pending`, every child terminal, and every identifier in the
explicit dependency list terminal — for comparison with the source predicate
`canExecuteNode`. -/
def specEligibleToRun (tree : PlanTree) (dag : DAG)
    (statuses : List (Nat × ExecStatus)) (n : Nat) : Bool :=
  (statuses.lookup n == some ExecStatus.pending) &&
  (match dag.nodes.lookup n with
   | some dagNode => dagNode.child_ids.all (isTerminalStatus statuses)
   | none => false) &&
  (match tree.nodes.lookup n with
   | some treeNode => treeNode.dependencies.all (isTerminalStatus statuses)
   | none => true)

/-! ## Claim C1 -/

/-- Claim C1 (amended): merging preserves acyclicity of the parent/child
relation — every `force`-free `merge_nodes` call keeps the child-edge graph
acyclic, and so does the whole of `simplify` when the converted input tree is
child-acyclic.  The claim as frozen also includes dependency edges in the
cycle-freedom invariant; that stronger invariant is false on the code (see the
counterexample), because `is_reachable` searches child edges only. -/
theorem C1_child_acyclicity :
    (∀ (dag : DAG) (K R : Nat), ChildAcyclic dag.nodes →
      ChildAcyclic (merge_nodes dag K R false).1.nodes) ∧
    (∀ (matcher : SimilarityMatcher) (tree : PlanTree) (maxIter : Nat),
      ChildAcyclic (tree_to_dag tree).nodes →
      ChildAcyclic (simplify matcher tree maxIter).nodes) :=
  ⟨merge_nodes_preserves_childAcyclic, simplify_preserves_childAcyclic⟩

/-- Witness for C1 at a concrete input: the counterexample plan has no
parent/child edges at all, so both parts of the theorem apply to it. -/
theorem C1_child_acyclicity_witness :
    ChildAcyclic (merge_nodes (tree_to_dag cexTree) 1 2 false).1.nodes ∧
    ChildAcyclic (simplify cexMatcher cexTree 100).nodes :=
  ⟨C1_child_acyclicity.1 (tree_to_dag cexTree) 1 2
      (childAcyclic_of_no_children (by decide)),
   C1_child_acyclicity.2 cexMatcher cexTree 100
      (childAcyclic_of_no_children (by decide))⟩

/-- Counterexample to claim C1 as frozen: on `cexTree` the simplifier folds
nodes 1 and 2 (they are unrelated by child edges and by direct dependency),
after which node 1 reaches itself through two dependency edges — the combined
parent/child-or-dependency graph is cyclic. -/
theorem C1_counterexample :
    Relation.TransGen
      (fun a b => combEdgeB (simplify cexMatcher cexTree 100).nodes a b = true)
      1 1 :=
  Relation.TransGen.head (b := 3) (by decide) (Relation.TransGen.single (by decide))

/-! ## Claim C2 -/

/-- Claim C2 (amended): the simplifier never folds a pair rejected by the
code-level safety check `can_merge` (same node, direct parent/child link,
child-edge reachability in either direction, or a direct dependency), even
when the oracle answers `should_merge = true`: a `force`-free `merge_nodes`
on such a pair reports failure and leaves the DAG untouched, and every change
a scan pass makes to the DAG goes through a `merge_nodes` call on a pair that
passed `can_merge`.  The frozen claim additionally excludes pairs joined by a
chain of dependency edges; the code does not (see the counterexample). -/
theorem C2_merge_safety :
    (∀ (dag : DAG) (a b : Nat), can_merge dag a b = false →
      merge_nodes dag a b false = (dag, false)) ∧
    (∀ (matcher : SimilarityMatcher) (pairs : List (Nat × Nat × Nat)) (dag : DAG)
      (cache : List ((Nat × Nat) × Bool)),
      (simplifyPass matcher dag cache pairs).1 = dag ∨
      ∃ a b, can_merge dag a b = true ∧
        (simplifyPass matcher dag cache pairs).1 = (merge_nodes dag a b false).1) :=
  ⟨fun _ _ _ h => merge_nodes_not_mergeable h,
   fun matcher pairs dag cache => simplifyPass_cases matcher pairs dag cache⟩

/-- Witness for C2 at a concrete input: the pair (1, 1) is rejected and the
DAG of the counterexample tree is left unchanged. -/
theorem C2_merge_safety_witness :
    can_merge (tree_to_dag cexTree) 1 1 = false ∧
    merge_nodes (tree_to_dag cexTree) 1 1 false = (tree_to_dag cexTree, false) :=
  ⟨by decide, C2_merge_safety.1 (tree_to_dag cexTree) 1 1 (by decide)⟩

/-- Counterexample to claim C2 as frozen: before any merge, node 1 of
`cexTree` reaches node 2 via dependency edges (1 → 3 → 2), so the frozen
claim forbids folding the pair (1, 2); `simplify` folds it anyway and records
`2 ↦ 1` in the merge map. -/
theorem C2_counterexample :
    Relation.TransGen
      (fun a b => combEdgeB (tree_to_dag cexTree).nodes a b = true) 1 2 ∧
    (simplify cexMatcher cexTree 100).merge_map.lookup 2 = some 1 :=
  ⟨Relation.TransGen.head (b := 3) (by decide)
      (Relation.TransGen.single (by decide)),
   by decide⟩

/-! ## Claim C3 -/

/-- Claim C3 (amended): a node is eligible to run iff its own status is
`pending` and every child is terminal (`completed`, `failed` or `skipped`);
the explicit dependency list is not consulted by `_can_execute_node` (the
frozen claim also requires every explicit dependency to be terminal, which the
code does not check — see the counterexample). -/
theorem C3_eligibility (dag : DAG) (statuses : List (Nat × ExecStatus)) (n : Nat) :
    canExecuteNode dag statuses n = true ↔
      statuses.lookup n = some ExecStatus.pending ∧
      ∃ dagNode, dag.nodes.lookup n = some dagNode ∧
        ∀ c ∈ dagNode.child_ids, ∃ s, statuses.lookup c = some s ∧
          (s = ExecStatus.completed ∨ s = ExecStatus.failed ∨
            s = ExecStatus.skipped) :=
  canExecuteNode_iff dag statuses n

/-- Counterexample to claim C3 as frozen: node 1 of `c3Tree` explicitly
depends on node 2, which is still `pending`, yet `_can_execute_node` declares
node 1 eligible (it has no children); the spec-worded eligibility test
rejects it. -/
theorem C3_counterexample :
    canExecuteNode (tree_to_dag c3Tree) (initializeNodeStates c3Tree).1 1 = true ∧
    specEligibleToRun c3Tree (tree_to_dag c3Tree)
      (initializeNodeStates c3Tree).1 1 = false := by
  exact ⟨by decide, by decide⟩

/-! ## Claim C4 -/

/-- Claim C4 (amended): a cycle in the explicit dependency graph is not fatal:
the `ValueError` of the incomplete Kahn sort is caught, the execution order
falls back to the ascending node ids, and the run proceeds — every node of
the order is handled (executed, or marked `skipped`), none is left `pending`
and no error aborts the run before nodes execute. -/
theorem C4_cycle_fallback (tree : PlanTree)
    (hdep : depEdges tree ≠ []) (hcyc : depKahnOrder tree = none) :
    computeTopoOrder tree = sortedAsc (keysOf (tree_to_dag tree).nodes) ∧
    ∀ (oracle : Nat → Bool) (n : Nat), n ∈ computeTopoOrder tree →
      (executeFinalStatuses tree oracle).lookup n ≠ some ExecStatus.pending := by
  constructor
  · unfold computeTopoOrder
    rw [if_pos hdep, hcyc]
  · intro oracle n hn
    unfold executeFinalStatuses
    exact foldl_executeStep_nonpending tree (tree_to_dag tree) oracle
      (computeTopoOrder tree) (initializeNodeStates tree) n hn

/-- Witness for C4 at the concrete cyclic plan. -/
theorem C4_cycle_fallback_witness :
    computeTopoOrder cycTree = sortedAsc (keysOf (tree_to_dag cycTree).nodes) ∧
    ∀ (oracle : Nat → Bool) (n : Nat), n ∈ computeTopoOrder cycTree →
      (executeFinalStatuses cycTree oracle).lookup n ≠ some ExecStatus.pending :=
  C4_cycle_fallback cycTree (by decide) (by decide)

/-- Counterexample to claim C4 as frozen: `cycTree` has a dependency cycle
(1 ↔ 2), yet the run is not aborted — both nodes are executed to completion
and node 1 has an execution record. -/
theorem C4_counterexample :
    depKahnOrder cycTree = none ∧
    (execute cycTree (fun _ => true)).completed_nodes = 2 ∧
    (execute cycTree (fun _ => true)).node_records.lookup 1 =
      some { node_id := 1, node_name := "a", status := ExecStatus.completed } := by
  exact ⟨by decide, by decide, by decide⟩

/-! ## Claim C5 -/

/-- Collaborators whose targeted patches come back blank while full
generation (including the rethink call) always produces code. -/
def c5Collabs : CodeCollaborators :=
  { generate := fun _ _ => { code := "print(1)", description := "plan" },
    generate_visualization := fun _ _ => { code := "print(1)" },
    fix_code := fun _ _ => { code := "" },
    fix_visualization_code := fun _ _ => { code := "" } }

/-- A sandbox that rejects every attempt. -/
def c5Sandbox : Nat → String → CodeExecutionResult :=
  fun _ _ => { status := "failed", output := "", error := "boom", exit_code := 1 }

/-- Claim C5: code bug.  The sandbox is indeed invoked at most
`max_fix_attempts` (default 5) times, but the escalation schedule is not the
specified one: the loop asks the fix collaborator for a targeted patch on
every failing attempt, and issues the full-history redesign request as soon as
a patch comes back blank — on the trace below already at attempt 1 with a
one-entry history, not "no earlier than attempt 3". -/
theorem C5_retry_escalation :
    (executeCodeTask c5Collabs c5Sandbox "t" "d").2 =
      [RetryEvent.sandboxRun 1, RetryEvent.fixRequest 1,
       RetryEvent.redesignRequest 1 1,
       RetryEvent.sandboxRun 2, RetryEvent.fixRequest 2,
       RetryEvent.redesignRequest 2 2,
       RetryEvent.sandboxRun 3, RetryEvent.fixRequest 3,
       RetryEvent.redesignRequest 3 3,
       RetryEvent.sandboxRun 4, RetryEvent.fixRequest 4,
       RetryEvent.redesignRequest 4 4,
       RetryEvent.sandboxRun 5] ∧
    (executeCodeTask c5Collabs c5Sandbox "t" "d").1.total_attempts = 5 ∧
    RetryEvent.redesignRequest 1 1 ∈
      (executeCodeTask c5Collabs c5Sandbox "t" "d").2 := by
  exact ⟨by decide, by decide, by decide⟩

/-! ## Claim C6 -/

/-- Claim C6 (amended): state initialisation on a resumed run behaves as
claimed — a node persisted `running` is re-initialised to `pending`,
persisted `completed` and `failed` statuses are loaded verbatim, and a
completed node's execution record is reloaded from the persisted payload.
The claim's further assertion that a formerly-running node is then
re-executed from scratch does not hold of the scheduler (see the
counterexample): such a node can be marked `skipped` without ever running
when one of its children is not yet terminal at its turn in the execution
order. -/
theorem C6_resumption (tree : PlanTree) (h : (tree.nodes.map Prod.fst).Nodup) :
    (∀ n node, (n, node) ∈ tree.nodes → pythonLower node.status = "running" →
      (initializeNodeStates tree).1.lookup n = some ExecStatus.pending) ∧
    (∀ n node, (n, node) ∈ tree.nodes → pythonLower node.status = "completed" →
      (initializeNodeStates tree).1.lookup n = some ExecStatus.completed ∧
      (initializeNodeStates tree).2.lookup n = loadNodeRecordFromDb node) ∧
    (∀ n node, (n, node) ∈ tree.nodes → pythonLower node.status = "failed" →
      (initializeNodeStates tree).1.lookup n = some ExecStatus.failed) := by
  refine ⟨?_, ?_, ?_⟩
  · intro n node hm hrun
    have hne : node.status ≠ "" := by
      intro he
      rw [he] at hrun
      exact absurd hrun (by decide)
    have hmap : mapDbStatusToExecutionStatus node.status = ExecStatus.pending := by
      simp only [mapDbStatusToExecutionStatus]
      rw [if_neg hne, hrun]
      rfl
    show (tree.nodes.map initStatusEntry).lookup n = some ExecStatus.pending
    rw [lookup_map_initStatus, lookup_eq_of_mem_nodup h hm]
    simp [hmap]
  · intro n node hm hcomp
    have hne : node.status ≠ "" := by
      intro he
      rw [he] at hcomp
      exact absurd hcomp (by decide)
    have hmap : mapDbStatusToExecutionStatus node.status
        = ExecStatus.completed := by
      simp only [mapDbStatusToExecutionStatus]
      rw [if_neg hne, hcomp]
      rfl
    constructor
    · show (tree.nodes.map initStatusEntry).lookup n = some ExecStatus.completed
      rw [lookup_map_initStatus, lookup_eq_of_mem_nodup h hm]
      simp [hmap]
    · show (tree.nodes.filterMap initRecordEntry).lookup n
        = loadNodeRecordFromDb node
      rw [lookup_filterMap_initRecord h hm]
      simp only [initRecordEntry]
      rw [if_pos hmap]
      rcases hl : loadNodeRecordFromDb node with _ | rec
      · rfl
      · rfl
  · intro n node hm hfail
    have hne : node.status ≠ "" := by
      intro he
      rw [he] at hfail
      exact absurd hfail (by decide)
    have hmap : mapDbStatusToExecutionStatus node.status = ExecStatus.failed := by
      simp only [mapDbStatusToExecutionStatus]
      rw [if_neg hne, hfail]
      rfl
    show (tree.nodes.map initStatusEntry).lookup n = some ExecStatus.failed
    rw [lookup_map_initStatus, lookup_eq_of_mem_nodup h hm]
    simp [hmap]

/-- Witness for C6 at the concrete resumed plan: node 1 (persisted `running`)
starts over as `pending`, node 4 (persisted `completed`) keeps its status and
its reloaded record. -/
theorem C6_resumption_witness :
    (initializeNodeStates resumeTree).1.lookup 1 = some ExecStatus.pending ∧
    (initializeNodeStates resumeTree).1.lookup 4 = some ExecStatus.completed ∧
    (initializeNodeStates resumeTree).2.lookup 4 =
      loadNodeRecordFromDb
        { id := 4, name := "done", status := "completed",
          execution_result := some { task_type := some "text_only",
                                     text_response := some "cached answer" } } :=
  ⟨(C6_resumption resumeTree (by decide)).1 1
      { id := 1, name := "p", status := "running" } (by decide) (by decide),
   ((C6_resumption resumeTree (by decide)).2.1 4
      { id := 4, name := "done", status := "completed",
        execution_result := some { task_type := some "text_only",
                                   text_response := some "cached answer" } }
      (by decide) (by decide)).1,
   ((C6_resumption resumeTree (by decide)).2.1 4
      { id := 4, name := "done", status := "completed",
        execution_result := some { task_type := some "text_only",
                                   text_response := some "cached answer" } }
      (by decide) (by decide)).2⟩

/-- Counterexample to claim C6 as frozen: in `resumeTree`, node 1 was
persisted `running` and is duly re-initialised to `pending`, but it is never
re-executed from scratch: its slot in the dependency-driven order comes before
its child has run, so the scheduler marks it `skipped` and the run ends with
no execution record for it. -/
theorem C6_counterexample :
    mapDbStatusToExecutionStatus "running" = ExecStatus.pending ∧
    (executeFinalStatuses resumeTree (fun _ => true)).lookup 1 =
      some ExecStatus.skipped ∧
    (execute resumeTree (fun _ => true)).node_records.lookup 1 = none := by
  exact ⟨by decide, by decide, by decide⟩

/-! ## Claim C7 -/

/-- Claim C7 (amended): the merge loop always terminates — it runs at most
`max_iterations` passes, stops earlier as soon as a pass merges nothing, and
the cap is irrelevant as soon as it exceeds the node count (each merging pass
removes a node, so the loop reaches a merge-free pass before any larger cap).
The frozen claim's cap of 2× the node count is not what the code enforces:
`simplify` bounds the loop by its `max_iterations` parameter, default 100,
independent of the node count — see the counterexample, where 102 nodes leave
mergeable work undone after the 100 allowed passes. -/
theorem C7_termination (matcher : SimilarityMatcher) (tree : PlanTree)
    (f1 f2 : Nat) (h1 : (tree_to_dag tree).nodes.length < f1)
    (h2 : (tree_to_dag tree).nodes.length < f2) :
    simplify matcher tree f1 = simplify matcher tree f2 :=
  simplify_fuel_stable matcher tree f1 f2 h1 h2

/-- Witness for C7: on the three-node plan any cap beyond the node count
yields the same result. -/
theorem C7_termination_witness :
    simplify cexMatcher cexTree 5 = simplify cexMatcher cexTree 7 :=
  C7_termination cexMatcher cexTree 5 7 (by decide) (by decide)

/-- The identifiers still present after `k` merging passes on `bigTree`:
`k+2, …, 102`. -/
def remIds (k : Nat) : List Nat :=
  (List.range (101 - k)).map (fun i => i + (k + 2))

/-- The DAG after `k` merging passes of `simplify` on `bigTree`: pass `k`
folds node `k+2` into node 1. -/
def bigDag : Nat → DAG
  | 0 => tree_to_dag bigTree
  | k + 1 => (merge_nodes (bigDag k) 1 (k + 2) false).1

/-- The pair-decision cache after `k` merging passes of the `bigTree` run. -/
def bigCache : Nat → List ((Nat × Nat) × Bool)
  | 0 => []
  | k + 1 => bigCache k ++ [((1, k + 2), true)]

/-- The suffix of `bigPairs` still unprocessed when the scan reaches
position `j`. -/
def bigPairsFrom (j : Nat) : List (Nat × Nat × Nat) :=
  (List.range (101 - j)).map (fun i => (1, i + j + 2, 1000 - (i + j)))

/-- Invariant of the `bigTree` run: after `k` passes the surviving keys are
node 1 followed by `k+2 … 102`, every surviving node is isolated, and the
merge map holds exactly one entry per pass. -/
def BigInv (k : Nat) : Prop :=
  keysOf (bigDag k).nodes = 1 :: remIds k ∧
  (∀ p ∈ (bigDag k).nodes, p.2.parent_ids = [] ∧ p.2.child_ids = [] ∧
    p.2.dependencies = []) ∧
  (bigDag k).merge_map.length = k

theorem mem_remIds {x k : Nat} (h : x ∈ remIds k) : k + 2 ≤ x := by
  rcases List.mem_map.mp h with ⟨i, hi, rfl⟩
  omega

theorem remIds_cons {k : Nat} (hk : k ≤ 100) :
    remIds k = (k + 2) :: remIds (k + 1) := by
  unfold remIds
  have h1 : 101 - k = (101 - (k + 1)) + 1 := by omega
  rw [h1, List.range_succ_eq_map, List.map_cons, List.map_map]
  congr 1
  · omega
  · refine List.map_congr_left fun i _ => ?_
    show Nat.succ i + (k + 2) = i + (k + 1 + 2)
    omega

theorem remIds_filter {k : Nat} (hk : k ≤ 100) :
    (remIds k).filter (fun x => x ≠ k + 2) = remIds (k + 1) := by
  rw [remIds_cons hk, List.filter_cons]
  rw [if_neg (by simp)]
  refine List.filter_eq_self.mpr fun a ha => ?_
  have := mem_remIds ha
  simp only [decide_eq_true_eq]
  omega

theorem bigPairsFrom_zero : bigPairsFrom 0 = bigPairs := by
  unfold bigPairsFrom bigPairs
  refine List.map_congr_left fun i _ => ?_
  show ((1, i + 0 + 2, 1000 - (i + 0)) : Nat × Nat × Nat) = (1, i + 2, 1000 - i)
  simp

theorem bigPairsFrom_cons {j : Nat} (hj : j ≤ 100) :
    bigPairsFrom j = (1, j + 2, 1000 - j) :: bigPairsFrom (j + 1) := by
  unfold bigPairsFrom
  have h1 : 101 - j = (101 - (j + 1)) + 1 := by omega
  rw [h1, List.range_succ_eq_map, List.map_cons, List.map_map]
  congr 1
  · show ((1, 0 + j + 2, 1000 - (0 + j)) : Nat × Nat × Nat) = (1, j + 2, 1000 - j)
    rw [Nat.zero_add]
  · refine List.map_congr_left fun i _ => ?_
    show ((1, Nat.succ i + j + 2, 1000 - (Nat.succ i + j)) : Nat × Nat × Nat)
        = (1, i + (j + 1) + 2, 1000 - (i + (j + 1)))
    have hs : Nat.succ i + j = i + (j + 1) := by omega
    rw [hs]

theorem keysOf_filter_ne {b : Nat} :
    ∀ {l : List (Nat × DAGNode)},
      keysOf (l.filter (fun p => p.1 ≠ b)) = (keysOf l).filter (fun x => x ≠ b) := by
  intro l
  induction l with
  | nil => rfl
  | cons p ps ih =>
      by_cases hp : p.1 = b
      · rw [List.filter_cons, if_neg (by simp [hp])]
        show keysOf (ps.filter (fun p => p.1 ≠ b)) = _
        rw [show keysOf (p :: ps) = p.1 :: keysOf ps from rfl]
        rw [List.filter_cons, if_neg (by simp [hp])]
        exact ih
      · rw [List.filter_cons, if_pos (by simp [hp])]
        rw [show keysOf (p :: ps.filter (fun p => p.1 ≠ b))
            = p.1 :: keysOf (ps.filter (fun p => p.1 ≠ b)) from rfl]
        rw [show keysOf (p :: ps) = p.1 :: keysOf ps from rfl]
        rw [List.filter_cons, if_pos (by simp [hp])]
        rw [ih]

theorem keysOf_map_mergeRewrite {K R : Nat} {m : DAGNode}
    {l : List (Nat × DAGNode)} :
    keysOf (l.map (mergeRewriteEntry K R m)) = keysOf l := by
  unfold keysOf
  rw [List.map_map]
  exact List.map_congr_left fun p _ => rfl

theorem lookup_isSome_of_mem_keys :
    ∀ {l : List (Nat × DAGNode)} {x : Nat},
      x ∈ keysOf l → ∃ n, l.lookup x = some n := by
  intro l
  induction l with
  | nil => intro x hx; simp [keysOf] at hx
  | cons p ps ih =>
      intro x hx
      rcases p with ⟨pk, pv⟩
      have hx2 : x = pk ∨ x ∈ keysOf ps := by
        have hxc : x ∈ pk :: keysOf ps := hx
        exact List.mem_cons.mp hxc
      rcases hx2 with rfl | hm
      · exact ⟨pv, by simp [List.lookup_cons]⟩
      · by_cases hxp : x = pk
        · exact ⟨pv, by simp [List.lookup_cons, hxp]⟩
        · rcases ih hm with ⟨n, hn⟩
          refine ⟨n, ?_⟩
          rw [List.lookup_cons, beq_false_of_ne hxp]
          exact hn

theorem lookup_eq_none_of_not_mem_keys :
    ∀ {l : List (Nat × DAGNode)} {x : Nat},
      x ∉ keysOf l → l.lookup x = none := by
  intro l
  induction l with
  | nil => intro x _; rfl
  | cons p ps ih =>
      intro x hx
      rcases p with ⟨pk, pv⟩
      have hxp : x ≠ pk := fun he => hx (by simp [keysOf, he])
      have hm : x ∉ keysOf ps := fun hm2 => hx (by
        simp only [keysOf, List.map_cons, List.mem_cons]
        exact Or.inr (by simpa [keysOf] using hm2))
      rw [List.lookup_cons, beq_false_of_ne hxp]
      exact ih hm

/-- On a DAG without child edges the BFS finds nothing besides its start. -/
theorem is_reachable_isolated {dag : DAG}
    (h : ∀ p ∈ dag.nodes, p.2.child_ids = []) {f t : Nat} (hft : f ≠ t) :
    is_reachable dag f t = false := by
  unfold is_reachable
  rw [if_neg hft]
  obtain ⟨m, hm⟩ : ∃ m, bfsFuel dag.nodes = m + 1 + 1 :=
    ⟨dag.nodes.length + (dag.nodes.map (fun p => p.2.child_ids.length)).sum, by
      unfold bfsFuel
      omega⟩
  rw [hm]
  simp only [bfsReach]
  rw [if_neg hft, if_neg (List.not_mem_nil f)]
  rcases hl : dag.nodes.lookup f with _ | nd
  · rfl
  · have hchild : nd.child_ids = [] := h _ (lookup_mem hl)
    show bfsReach dag.nodes t (m + 1) (sadd [] f)
      ([] ++ sdiff nd.child_ids (sadd [] f)) = false
    rw [hchild]
    rfl

/-- `can_merge` accepts any two distinct present nodes of an isolated DAG. -/
theorem can_merge_isolated {dag : DAG} {a b : Nat} {na nb : DAGNode}
    (ha : dag.nodes.lookup a = some na) (hb : dag.nodes.lookup b = some nb)
    (hiso : ∀ p ∈ dag.nodes, p.2.parent_ids = [] ∧ p.2.child_ids = [] ∧
      p.2.dependencies = [])
    (hab : a ≠ b) :
    can_merge dag a b = true := by
  have hna := hiso _ (lookup_mem ha)
  have hnb := hiso _ (lookup_mem hb)
  have hreach : ∀ p ∈ dag.nodes, p.2.child_ids = [] :=
    fun p hp => (hiso p hp).2.1
  rw [can_merge_eq_of_lookup ha hb]
  rw [if_neg hab]
  rw [if_neg (by rw [hna.2.1, hnb.2.1]; simp)]
  rw [if_neg (by rw [hna.1, hnb.1]; simp)]
  rw [is_reachable_isolated hreach hab, if_neg (by simp)]
  rw [is_reachable_isolated hreach (Ne.symm hab), if_neg (by simp)]
  rw [hna.2.2, if_neg (by simp)]
  rw [hnb.2.2, if_neg (by simp)]

theorem bigDag_lookup_one {k : Nat} (h : BigInv k) :
    ∃ n, (bigDag k).nodes.lookup 1 = some n :=
  lookup_isSome_of_mem_keys (h.1 ▸ List.mem_cons_self 1 (remIds k))

theorem bigDag_lookup_next {k : Nat} (hk : k ≤ 100) (h : BigInv k) :
    ∃ n, (bigDag k).nodes.lookup (k + 2) = some n := by
  apply lookup_isSome_of_mem_keys
  rw [h.1, remIds_cons hk]
  exact List.mem_cons_of_mem 1 (List.mem_cons_self (k + 2) (remIds (k + 1)))

theorem bigDag_can_merge {k : Nat} (hk : k ≤ 100) (h : BigInv k) :
    can_merge (bigDag k) 1 (k + 2) = true := by
  obtain ⟨n1, h1⟩ := bigDag_lookup_one h
  obtain ⟨n2, h2⟩ := bigDag_lookup_next hk h
  exact can_merge_isolated h1 h2 h.2.1 (by omega)

theorem bigCache_lookup_none : ∀ (k j : Nat), k ≤ j →
    (bigCache k).lookup (1, j + 2) = none := by
  intro k
  induction k with
  | zero => intro j _; rfl
  | succ m ih =>
      intro j hj
      show (bigCache m ++ [((1, m + 2), true)]).lookup (1, j + 2) = none
      rw [lookup_append, ih j (by omega)]
      have hne : ((1, j + 2) : Nat × Nat) ≠ (1, m + 2) :=
        fun he => absurd (congrArg Prod.snd he) (by omega)
      rw [List.lookup_cons, beq_false_of_ne hne]
      rfl

theorem bigInv_zero : BigInv 0 :=
  ⟨by decide, by decide, by decide⟩

theorem bigInv_succ {k : Nat} (hk : k ≤ 99) (h : BigInv k) : BigInv (k + 1) := by
  obtain ⟨n1, h1⟩ := bigDag_lookup_one h
  obtain ⟨n2, h2⟩ := bigDag_lookup_next (by omega) h
  have hc := bigDag_can_merge (by omega) h
  have hme := merge_nodes_success_eq h1 h2 hc
  have hstate : bigDag (k + 1) =
      { bigDag k with
        nodes := ((bigDag k).nodes.map (mergeRewriteEntry 1 (k + 2)
            (dropSelfRefs (merge_from n1 n2) 1 (k + 2)))).filter
              (fun p => p.1 ≠ k + 2),
        merge_map := (bigDag k).merge_map ++ [(k + 2, 1)] } :=
    congrArg Prod.fst hme
  have hn1 := h.2.1 _ (lookup_mem h1)
  have hn2 := h.2.1 _ (lookup_mem h2)
  refine ⟨?_, ?_, ?_⟩
  · rw [hstate]
    show keysOf (((bigDag k).nodes.map (mergeRewriteEntry 1 (k + 2)
        (dropSelfRefs (merge_from n1 n2) 1 (k + 2)))).filter
          (fun p => p.1 ≠ k + 2)) = 1 :: remIds (k + 1)
    rw [keysOf_filter_ne, keysOf_map_mergeRewrite, h.1]
    rw [List.filter_cons, if_pos (by simp only [decide_eq_true_eq]; omega)]
    rw [remIds_filter (by omega)]
  · rw [hstate]
    intro p hp
    rcases List.mem_filter.mp hp with ⟨hpm, hpne⟩
    rcases List.mem_map.mp hpm with ⟨q, hq, rfl⟩
    have hqf := h.2.1 q hq
    have hqne : q.1 ≠ k + 2 := by simpa [mergeRewriteEntry] using hpne
    have hp1 : n1.parent_ids = [] := hn1.1
    have hc1 : n1.child_ids = [] := hn1.2.1
    have hd1 : n1.dependencies = [] := hn1.2.2
    have hp2 : n2.parent_ids = [] := hn2.1
    have hc2 : n2.child_ids = [] := hn2.2.1
    have hd2 : n2.dependencies = [] := hn2.2.2
    by_cases hq1 : q.1 = 1
    · have hgoal : mergeRewriteEntry 1 (k + 2)
          (dropSelfRefs (merge_from n1 n2) 1 (k + 2)) q
          = (q.1, dropSelfRefs (merge_from n1 n2) 1 (k + 2)) := by
        unfold mergeRewriteEntry
        rw [if_pos hq1]
      rw [hgoal]
      refine ⟨?_, ?_, ?_⟩
      · show sdiscard (sdiscard (sunion n1.parent_ids n2.parent_ids) 1) (k + 2) = []
        rw [hp1, hp2]
        rfl
      · show sdiscard (sdiscard (sunion n1.child_ids n2.child_ids) 1) (k + 2) = []
        rw [hc1, hc2]
        rfl
      · show sunion n1.dependencies n2.dependencies = []
        rw [hd1, hd2]
        rfl
    · have hgoal : mergeRewriteEntry 1 (k + 2)
          (dropSelfRefs (merge_from n1 n2) 1 (k + 2)) q
          = (q.1, rewriteNode q.2 (k + 2) 1) := by
        unfold mergeRewriteEntry
        rw [if_neg hq1, if_neg hqne]
      rw [hgoal]
      refine ⟨?_, ?_, ?_⟩
      · show rewriteRef q.2.parent_ids (k + 2) 1 = []
        rw [hqf.1]
        rfl
      · show rewriteRef q.2.child_ids (k + 2) 1 = []
        rw [hqf.2.1]
        rfl
      · show rewriteRef q.2.dependencies (k + 2) 1 = []
        rw [hqf.2.2]
        rfl
  · rw [hstate]
    show ((bigDag k).merge_map ++ [(k + 2, 1)]).length = k + 1
    rw [List.length_append, h.2.2]
    rfl

theorem bigInv_all : ∀ k, k ≤ 100 → BigInv k := by
  intro k
  induction k with
  | zero => intro _; exact bigInv_zero
  | succ m ih => intro hm; exact bigInv_succ (by omega) (ih (by omega))

/-- One pass of the `bigTree` scan from position `j ≤ k`: the `k` already
merged pairs are skipped (their removed endpoints are gone) and the pair
`(1, k+2)` is folded, extending the merge map and the cache by one entry. -/
theorem bigPass {k : Nat} (hk : k ≤ 99) (h : BigInv k) :
    ∀ n j, j + n = k →
      simplifyPass bigMatcher (bigDag k) (bigCache k) (bigPairsFrom j) =
        (bigDag (k + 1), bigCache (k + 1), true) := by
  intro n
  induction n with
  | zero =>
      intro j hj
      have hjk : j = k := by omega
      subst hjk
      obtain ⟨n1, h1⟩ := bigDag_lookup_one h
      obtain ⟨n2, h2⟩ := bigDag_lookup_next (by omega) h
      have hc := bigDag_can_merge (by omega) h
      have hme := merge_nodes_success_eq h1 h2 hc
      have hm2 : merge_nodes (bigDag j) 1 (j + 2) false = (bigDag (j + 1), true) :=
        Prod.ext rfl (by rw [hme])
      have hmin : min 1 (j + 2) = 1 := min_eq_left (by omega)
      have hmax : max 1 (j + 2) = j + 2 := max_eq_right (by omega)
      have hpd : passDecision bigMatcher (bigDag j) (bigCache j) 1 (j + 2) =
          (some true, bigCache (j + 1)) := by
        simp only [passDecision, hmin, hmax]
        rw [bigCache_lookup_none j j (Nat.le_refl j)]
        rw [h1, h2]
        rfl
      rw [bigPairsFrom_cons (by omega)]
      simp only [simplifyPass]
      rw [if_neg (by simp [hasKey, h1, h2])]
      rw [hpd, hmin, hmax, hm2]
  | succ m ih =>
      intro j hj
      have hj2 : (j + 2) ∉ keysOf (bigDag k).nodes := by
        rw [h.1]
        intro hmem
        rcases List.mem_cons.mp hmem with heq | hmem2
        · omega
        · have := mem_remIds hmem2
          omega
      have hdead : (bigDag k).nodes.lookup (j + 2) = none :=
        lookup_eq_none_of_not_mem_keys hj2
      rw [bigPairsFrom_cons (by omega)]
      simp only [simplifyPass]
      rw [if_pos (Or.inr (by simp [hasKey, hdead]))]
      exact ih (j + 1) (by omega)

/-- The `bigTree` loop merges once per pass until its fuel runs out. -/
theorem bigLoop : ∀ (n k : Nat), k + n ≤ 100 → BigInv k →
    simplifyLoop bigMatcher (bigPairsFrom 0) n (bigDag k) (bigCache k) =
      bigDag (k + n) := by
  intro n
  induction n with
  | zero => intro k _ _; rfl
  | succ m ih =>
      intro k hk h
      show simplifyLoop bigMatcher (bigPairsFrom 0) (m + 1) (bigDag k)
        (bigCache k) = bigDag (k + (m + 1))
      simp only [simplifyLoop]
      rw [bigPass (by omega) h k 0 (by omega)]
      have hkm : k + 1 + m = k + (m + 1) := by omega
      rw [← hkm]
      exact ih (k + 1) (by omega) (bigInv_succ (by omega) h)

/-- The full `bigTree` simplification under the default cap. -/
theorem simplify_bigTree_eq : simplify bigMatcher bigTree 100 = bigDag 100 := by
  have hsort : sortPairsDesc bigPairs = bigPairsFrom 0 := by
    rw [bigPairsFrom_zero]
    decide
  show (if bigPairs = [] then tree_to_dag bigTree
        else simplifyLoop bigMatcher (sortPairsDesc bigPairs) 100
          (tree_to_dag bigTree) []) = bigDag 100
  rw [if_neg (by decide), hsort]
  exact bigLoop 100 0 (by omega) bigInv_zero

/-- Counterexample to claim C7 as frozen: on a 102-node plan under an
adversarial oracle the loop performs one merge per pass and is cut off by the
default cap of 100 (not 2 × 102 = 204) while a mergeable pair is still
available: after `simplify` the merge map holds exactly 100 entries and the
surviving pair (1, 102) still satisfies `can_merge`. -/
theorem C7_counterexample :
    (simplify bigMatcher bigTree 100).merge_map.length = 100 ∧
    can_merge (simplify bigMatcher bigTree 100) 1 102 = true ∧
    (∀ a b, bigMatcher.should_merge a b = true) ∧
    100 < 2 * 102 := by
  have hinv := bigInv_all 100 (Nat.le_refl 100)
  refine ⟨?_, ?_, fun a b => rfl, by omega⟩
  · rw [simplify_bigTree_eq]
    exact hinv.2.2
  · rw [simplify_bigTree_eq]
    exact bigDag_can_merge (Nat.le_refl 100) hinv

/-! ## Claim C8 -/

/-- Sandbox accepting every run (the C8 scenario needs no retries). -/
def c8Sandbox : Nat → String → CodeExecutionResult :=
  fun _ _ => { status := "success", output := "2" }

/-- Collaborators that always return code. -/
def c8Collabs : CodeCollaborators :=
  { generate := fun _ _ => { code := "print(2)", description := "gen" },
    generate_visualization := fun _ _ => { code := "print(2)" },
    fix_code := fun _ _ => { code := "print(3)" },
    fix_visualization_code := fun _ _ => { code := "print(3)" } }

/-- The text-generation collaborator. -/
def c8Chat : String → String := fun _ => "answer"

/-- A classifier that would answer `text_only` for everything — forced types
must override it. -/
def c8Classifier : String → String → Bool := fun _ _ => true

/-- The info-gathering collaborator (unused: gathering is skipped). -/
def c8Gather : String → String → String × Nat := fun _ _ => ("", 0)

/-- Claim C8: code bug.  A forced `code_required` or `text_only` mode is
honoured without consulting the classifier (which here would answer
`text_only` for everything) and the result carries the forced type; but
forcing the third mode, `data_summary`, crashes instead of running the task:
`execute` calls `_execute_data_summary_task(..., is_visualization=...)` while
that method accepts no such keyword, so the dispatch raises `TypeError`. -/
theorem C8_forced_task_type :
    (taskExecutorExecute c8Collabs c8Sandbox c8Chat c8Classifier c8Gather
        "t" "d" "" none (some "code_required") true false).toOption.map
          (fun r => r.1.task_type) = some TaskType.code_required ∧
    (taskExecutorExecute c8Collabs c8Sandbox c8Chat c8Classifier c8Gather
        "t" "d" "" none (some "text_only") true false).toOption.map
          (fun r => r.1.task_type) = some TaskType.text_only ∧
    taskExecutorExecute c8Collabs c8Sandbox c8Chat c8Classifier c8Gather
        "t" "d" "" none (some "data_summary") true false =
      Except.error
        "TypeError: _execute_data_summary_task got an unexpected keyword argument is_visualization" := by
  exact ⟨rfl, rfl, rfl⟩

/-! ## Claim C9 -/

/-- Claim C9 (amended): a container still observed running strictly past the
deadline is reported as a timeout — never `success` — and is killed and
removed; a `TimeoutExpired` of the subprocess backend likewise yields
`timeout` with the child process already killed by the library.  The frozen
claim promises more than the container backend delivers: the poll loop checks
the container status before the elapsed time, so a container that exits after
the deadline but before the first late poll is still reported `success` (see
the counterexample). -/
theorem C9_timeout (cb : ContainerBehavior) (timeoutSecs : Nat)
    (hlate : 2 * timeoutSecs + 1 < cb.exitTick) :
    ((dockerRunPythonCode true true cb timeoutSecs).result.status = "timeout" ∧
     (dockerRunPythonCode true true cb timeoutSecs).killed = true ∧
     (dockerRunPythonCode true true cb timeoutSecs).removed = true) ∧
    ∀ t : Nat,
      (venvRunPythonCode true SubprocessOutcome.timedOut t).result.status =
        "timeout" ∧
      (venvRunPythonCode true SubprocessOutcome.timedOut t).processKilled =
        true := by
  have hpoll : dockerPollTimedOut cb.exitTick timeoutSecs 0 = true :=
    dockerPollTimedOut_true hlate (2 * timeoutSecs + 1) 0 (by omega) (by omega)
  refine ⟨⟨?_, ?_, ?_⟩, ?_⟩
  · simp [dockerRunPythonCode, hpoll]
  · simp [dockerRunPythonCode, hpoll]
  · simp [dockerRunPythonCode, hpoll]
  · intro t
    exact ⟨rfl, rfl⟩

/-- Witness for C9: a container exiting only at poll tick 5 under a 1-second
limit, and a concrete subprocess timeout. -/
theorem C9_timeout_witness :
    (dockerRunPythonCode true true { exitTick := 5, statusCode := 0 } 1).result.status
      = "timeout" ∧
    (dockerRunPythonCode true true { exitTick := 5, statusCode := 0 } 1).killed
      = true ∧
    (venvRunPythonCode true SubprocessOutcome.timedOut 1).result.status
      = "timeout" :=
  ⟨(C9_timeout { exitTick := 5, statusCode := 0 } 1 (by decide)).1.1,
   (C9_timeout { exitTick := 5, statusCode := 0 } 1 (by decide)).1.2.1,
   ((C9_timeout { exitTick := 5, statusCode := 0 } 1 (by decide)).2 1).1⟩

/-- Counterexample to claim C9 as frozen: with a 1-second limit the loop
polls at ticks 0, 1, 2 (elapsed 0, 0.5, 1.0 seconds — never past the
deadline); the container exits at tick 3, an elapsed 1.5 seconds, so the run
exceeded the configured timeout, yet the next poll observes the exit before
the elapsed-time check fires and the run is reported `success`. -/
theorem C9_counterexample :
    (dockerRunPythonCode true true { exitTick := 3, statusCode := 0 } 1).result.status
      = "success" ∧
    2 * 1 < 3 := by
  have h3 : dockerPollTimedOut 3 1 3 = false := by
    rw [dockerPollTimedOut, if_pos (by omega)]
  have h2 : dockerPollTimedOut 3 1 2 = false := by
    rw [dockerPollTimedOut, if_neg (by omega), if_neg (by omega)]
    exact h3
  have h1 : dockerPollTimedOut 3 1 1 = false := by
    rw [dockerPollTimedOut, if_neg (by omega), if_neg (by omega)]
    exact h2
  have h0 : dockerPollTimedOut 3 1 0 = false := by
    rw [dockerPollTimedOut, if_neg (by omega), if_neg (by omega)]
    exact h1
  constructor
  · simp [dockerRunPythonCode, h0]
  · omega

/-! ## Claim C10 -/

/-- Claim C10: the run summary's `success` flag is exactly "no node ended
`failed`": skipped nodes do not affect it, and a run in which every node was
skipped and none completed still reports `success = true` with
`completed_nodes = 0`. -/
theorem C10_success_iff_no_failures :
    (∀ (tree : PlanTree) (oracle : Nat → Bool),
      (execute tree oracle).success = true ↔
        (execute tree oracle).failed_nodes = 0) ∧
    (execute skippedTree (fun _ => false)).success = true ∧
    (execute skippedTree (fun _ => false)).completed_nodes = 0 ∧
    (execute skippedTree (fun _ => false)).skipped_nodes = 2 ∧
    (execute skippedTree (fun _ => false)).node_records = [] := by
  refine ⟨?_, by decide, by decide, by decide, by decide⟩
  intro tree oracle
  simp [execute]

end ResultInterpreter
